import Mathlib

/-!
# Verification of the phl-courts-scraper record-reconstruction core

This file gives a shallow embedding, in Lean, of the layout-to-structured-record
reconstruction engine of the `phl-courts-scraper` repository
(`phl_courts_scraper/utils.py`, `phl_courts_scraper/court_summary/utils.py`,
`phl_courts_scraper/court_summary/core.py`, `phl_courts_scraper/court_summary/schema.py`)
and proves or refutes the specification claims about it.

Modelling conventions:
* PDF coordinates (Python floats) are modelled as integers (`Int`); every
  operation the code performs on them (subtraction, absolute value, comparison
  against integer tolerances) is ring/order arithmetic, so the embedding is
  faithful on integer-valued coordinate inputs.
* Python `dict` values are modelled as insertion-ordered association lists with
  unique keys; assignment replaces in place or appends (`dictInsert`).
* Fallible Python code (exceptions: `KeyError`, `IndexError`, `TypeError`,
  `ValueError`, `AssertionError`, `NameError`) is modelled with
  `Except String` / `Option`; the error string names the Python exception.
* Python generators are modelled as functions returning the list of all yielded
  items, with an error aborting the whole run.
-/

deriving instance DecidableEq for Except

namespace PhlCourts

/-- A positioned text fragment, mirroring the dataclass `Word` of
`phl_courts_scraper/utils.py` (fields `x0`, `x1`, `top`, `bottom`, `text`). -/
structure Word where
  x0 : Int
  x1 : Int
  top : Int
  bottom : Int
  text : String
deriving DecidableEq, Repr

/-- The `Word.x` property, an alias for `x0`. -/
def Word.x (w : Word) : Int := w.x0

/-- The `Word.y` property, an alias for `top`. -/
def Word.y (w : Word) : Int := w.top

/-- Python `dict` assignment `d[k] = v` on an insertion-ordered association
list: if the key is already present its value is replaced in place (keeping the
key position), otherwise the pair is appended at the end. -/
def dictInsert {κ α : Type} [DecidableEq κ] : List (κ × α) → κ → α → List (κ × α)
  | [], k, v => [(k, v)]
  | (k0, v0) :: rest, k, v =>
    if k0 = k then (k, v) :: rest else (k0, v0) :: dictInsert rest k v

/-- Python `dict` lookup `d.get(k)`: value of the first (unique) matching key. -/
def dictLookup {κ α : Type} [DecidableEq κ] : List (κ × α) → κ → Option α
  | [], _ => none
  | (k0, v0) :: rest, k => if k0 = k then some v0 else dictLookup rest k

/-- Auxiliary scan for `find_nearest`: tracks the index `best` of the smallest
absolute difference seen so far (strict improvement keeps the first minimum,
matching `numpy.argmin`), with `i` the index of the head of the remaining
list. -/
def find_nearestAux (value : Int) : List Int → Nat → Nat → Int → Nat
  | [], _, best, _ => best
  | x :: rest, i, best, bestDist =>
    if |x - value| < bestDist then find_nearestAux value rest (i + 1) i |x - value|
    else find_nearestAux value rest (i + 1) best bestDist

/-- `find_nearest` from `phl_courts_scraper/utils.py`: index of the element of
`array` nearest to `value` (`np.abs(a - value).argmin()`); `numpy.argmin`
returns the first minimising index, and raises on an empty array (`none`). -/
def find_nearest : List Int → Int → Option Nat
  | [], _ => none
  | x :: rest, value => some (find_nearestAux value rest 1 0 |x - value|)

/-- One iteration of the loop of `find_word_headers`
(`court_summary/utils.py`): find the nearest column header for `word` and store
`out[column_headers[nearest]] = word.text`.  `none` models the `ValueError`
raised by `numpy.argmin` on an empty header. -/
def find_word_headersStep (header : List Word) (out : List (String × String))
    (word : Word) : Option (List (String × String)) :=
  match find_nearest (header.map Word.x) word.x with
  | none => none
  | some nearest =>
    match (header.map Word.text).get? nearest with
    | none => none
    | some col => some (dictInsert out col word.text)

/-- The loop of `find_word_headers` over the words of the line, threading the
output dictionary. -/
def find_word_headersFrom (header : List Word) :
    List (String × String) → List Word → Option (List (String × String))
  | out, [] => some out
  | out, w :: rest =>
    match find_word_headersStep header out w with
    | none => none
    | some out2 => find_word_headersFrom header out2 rest

/-- `find_word_headers(line, header)` from `court_summary/utils.py`: map each
word of `line` to its nearest column header and return the resulting
column-name-to-text dictionary. -/
def find_word_headers (line header : List Word) : Option (List (String × String)) :=
  find_word_headersFrom header [] line

/-- The column key assigned to a single word `w` by `find_word_headers` against
`header`: the text of the header word whose `x` is nearest to `w.x`. -/
def colTextOf (header : List Word) (w : Word) : Option String :=
  match find_nearest (header.map Word.x) w.x with
  | none => none
  | some i => (header.map Word.text).get? i

/-- Stable insertion into a sorted list (insert before the first element not
`le`-below the new one), the building block of `pySorted`. -/
def pyInsertSorted {α : Type} (le : α → α → Bool) (x : α) : List α → List α
  | [] => [x]
  | y :: ys => if le x y then x :: y :: ys else y :: pyInsertSorted le x ys

/-- A stable sort modelling Python's `sorted` (structural recursion, so that
concrete runs reduce in the kernel). -/
def pySorted {α : Type} (le : α → α → Bool) : List α → List α
  | [] => []
  | x :: xs => pyInsertSorted le x (pySorted le xs)

/-- `sorted(objs, key=attrgetter("x"))` on words. -/
def sortByX (ws : List Word) : List Word :=
  pySorted (fun a b => decide (a.x ≤ b.x)) ws

/-- `np.unique`: the sorted list of distinct values. -/
def npUnique (l : List Int) : List Int :=
  pySorted (fun a b => decide (a ≤ b)) l.dedup

/-- The interval-tree point query of `group_into_lines`: the words whose
half-open interval `[w.y - tolerance, w.y + tolerance)` contains `q`
(`intervaltree` intervals are half-open; the set iteration order is modelled as
input order, which the subsequent sort by `x` makes irrelevant up to ties). -/
def treeQuery (words : List Word) (tolerance q : Int) : List Word :=
  words.filter fun w => decide (w.y - tolerance ≤ q ∧ q < w.y + tolerance)

/-- One iteration of the result-building loop of `group_into_lines`: record the
line for key `q` unless an identical value list was already recorded
(`if values not in result.values()`). -/
def group_into_linesStep (words : List Word) (tolerance : Int)
    (result : List (Int × List Word)) (q : Int) : List (Int × List Word) :=
  let values := sortByX (treeQuery words tolerance q)
  if values ∈ result.map Prod.snd then result else result ++ [(q, values)]

/-- `group_into_lines(words, tolerance)` from `phl_courts_scraper/utils.py`:
insert each word as the interval `[y - tolerance, y + tolerance)` into an
interval tree, then for each distinct `y` (ascending) collect the words whose
interval covers it, sort them by `x`, and record them keyed by `y` unless an
identical line was already recorded. -/
def group_into_lines (words : List Word) (tolerance : Int) : List (Int × List Word) :=
  (npUnique (words.map Word.y)).foldl (group_into_linesStep words tolerance) []

/-- The ASCII uppercase-to-lowercase table. -/
def lowerMap : List (Char × Char) :=
  [('A', 'a'), ('B', 'b'), ('C', 'c'), ('D', 'd'), ('E', 'e'), ('F', 'f'),
   ('G', 'g'), ('H', 'h'), ('I', 'i'), ('J', 'j'), ('K', 'k'), ('L', 'l'),
   ('M', 'm'), ('N', 'n'), ('O', 'o'), ('P', 'p'), ('Q', 'q'), ('R', 'r'),
   ('S', 's'), ('T', 't'), ('U', 'u'), ('V', 'v'), ('W', 'w'), ('X', 'x'),
   ('Y', 'y'), ('Z', 'z')]

/-- ASCII model of Python `str.lower` on a single character (`A`–`Z` map to
`a`–`z`, everything else is fixed; the documents' keys are ASCII). -/
def pyToLower (c : Char) : Char := (dictLookup lowerMap c).getD c

/-- Fuelled scanner for Python `str.replace(pat, "")`: left-to-right,
non-overlapping removal of occurrences of `pat`.  The fuel (always instantiated
with the list length) keeps the recursion structural so concrete runs reduce in
the kernel. -/
def removeSubFuel (pat : List Char) : Nat → List Char → List Char
  | _, [] => []
  | 0, l => l
  | fuel + 1, c :: rest =>
    if !pat.isEmpty && pat.isPrefixOf (c :: rest) then
      removeSubFuel pat fuel ((c :: rest).drop pat.length)
    else c :: removeSubFuel pat fuel rest

/-- Python `str.replace(pat, "")` on character lists (an empty pattern is a
no-op, as in Python with an empty replacement). -/
def removeSub (pat l : List Char) : List Char := removeSubFuel pat l.length l

/-- Python `str.split()` (split on whitespace runs, dropping empty pieces):
the accumulator holds the current piece reversed. -/
def pySplitAux : List Char → List Char → List (List Char)
  | acc, [] => if acc.isEmpty then [] else [acc.reverse]
  | acc, c :: rest =>
    if c.isWhitespace then
      if acc.isEmpty then pySplitAux [] rest else acc.reverse :: pySplitAux [] rest
    else pySplitAux (c :: acc) rest

/-- Python `str.split()` with no separator argument. -/
def pySplit (l : List Char) : List (List Char) := pySplitAux [] l

/-- Python `"_".join(pieces)`. -/
def joinUnderscore : List (List Char) → List Char
  | [] => []
  | [p] => p
  | p :: q :: rest => p ++ '_' :: joinUnderscore (q :: rest)

/-- The inner `_format_key` of `to_snake_case`
(`phl_courts_scraper/utils.py`): strip every pattern of `replace`, then
lowercase. -/
def formatKeyChars (replace : List (List Char)) (key : List Char) : List Char :=
  (replace.foldl (fun k c => removeSub c k) key).map pyToLower

/-- Key normalisation of `to_snake_case`:
`"_".join(_format_key(key).split())`. -/
def snakeKey (replace : List (List Char)) (key : String) : String :=
  ⟨joinUnderscore (pySplit (formatKeyChars replace key.data))⟩

/-- `to_snake_case(d, replace=["."])` from `phl_courts_scraper/utils.py`: the
dict comprehension rebuilding the dictionary with normalised keys (later
normalised keys overwrite earlier colliding ones, as in a Python dict
comprehension).  Values are untouched, hence the value type is a parameter. -/
def to_snake_case {α : Type} (d : List (String × α))
    (replace : List (List Char) := [['.']]) : List (String × α) :=
  d.foldl (fun acc kv => dictInsert acc (snakeKey replace kv.1) kv.2) []

/-- A sentence row: a plain string-to-string dictionary produced by
`find_word_headers`. -/
abbrev SentDict := List (String × String)

/-- The values stored in a charge row dictionary: strings (column texts) or the
`"sentences"` list of sentence dictionaries. -/
inductive RowVal where
  | s (v : String)
  | sentList (v : List SentDict)
deriving DecidableEq, Repr

/-- The values stored in the docket header dictionary: strings or the
`"extra"` list of unparsed strings. -/
inductive HVal where
  | s (v : String)
  | strList (v : List String)
deriving DecidableEq, Repr

/-- The result of `parse_charges_table`: the dict
`{"header": ..., "charges": ...}`. -/
structure DocketParse where
  header : List (String × HVal)
  charges : List (List (String × RowVal))
deriving DecidableEq, Repr

/-- The fixed column-header vocabulary of `parse_charges_table`. -/
def headersList : List String :=
  ["Seq No", "Statute", "Grade", "Description", "Disposition", "Sentence Dt.",
   "Sentence Type", "Program Period", "Sentence Length"]

/-- `header_tuples = [w for w in words if w.text in headers]`. -/
def headerTuples (words : List Word) : List Word :=
  words.filter fun w => decide (w.text ∈ headersList)

/-- `itertools.groupby(words, attrgetter("y"))` (no sorting): the list of
maximal runs of consecutive words sharing the same `y`, with the run key. -/
def groupbyY : List Word → List (Int × List Word)
  | [] => []
  | w :: rest =>
    match groupbyY rest with
    | [] => [(w.y, [w])]
    | (k, g) :: gs =>
      if w.y = k then (w.y, w :: g) :: gs else (w.y, [w]) :: (k, g) :: gs

/-- The header-row dictionary `H` of `parse_charges_table` (`H[aa] = list(bb)`
over the groupby runs; a repeated `y` key overwrites), followed by
`list(H.values())`. -/
def headerLinesAll (words : List Word) : List (List Word) :=
  ((groupbyY (headerTuples words)).foldl
    (fun acc kg => dictInsert acc kg.1 kg.2) []).map Prod.snd

/-- The header-row deduplication loop of `parse_charges_table`: keep the first
header row for each distinct list of texts, returning
`(header_values, header_lines)`. -/
def dedupHeaderLines (hls : List (List Word)) :
    List (List String) × List (List Word) :=
  hls.foldl
    (fun acc elem =>
      let texts := elem.map Word.text
      if texts ∈ acc.1 then acc else (acc.1 ++ [texts], acc.2 ++ [elem]))
    ([], [])

/-- The index-collecting loop of `find_line_numbers`
(`court_summary/utils.py`), parameterised by the comparison `tester` already
applied to the searched text: all indices of words whose text passes. -/
def find_line_numbers (words : List Word) (tester : String → Bool) : List Nat :=
  (words.enum.filter fun pr => tester pr.2.text).map Prod.fst

/-- `find_line_number(words, text)` with `how="equals"` and
`missing="ignore"`: the first matching index, if any. -/
def find_line_number_eq (words : List Word) (text : String) : Option Nat :=
  (find_line_numbers words fun t => t == text).head?

/-- `parse_docket_header(words)`: regroup by `y` and flatten (which preserves
the list), then split at the first occurrence of `"Seq No"`; if absent the
whole list is the header and the body is empty. -/
def parse_docket_header (words : List Word) : List Word × List Word :=
  let grouped_flat := ((groupbyY words).map Prod.snd).flatten
  match find_line_number_eq grouped_flat "Seq No" with
  | none => (grouped_flat, [])
  | some i => (grouped_flat.take i, grouped_flat.drop i)

/-- Python `s.split(sep)` for a one-character separator, on character lists
(`"".split(sep) = [""]`, and separators at the ends produce empty pieces). -/
def splitOnChar (sep : Char) : List Char → List (List Char)
  | [] => [[]]
  | c :: rest =>
    let r := splitOnChar sep rest
    if c == sep then [] :: r
    else
      match r with
      | [] => [[c]]
      | p :: ps => (c :: p) :: ps

/-- Python `str.strip()`: drop leading and trailing whitespace. -/
def pyStrip (s : String) : String :=
  ⟨((s.data.dropWhile Char.isWhitespace).reverse.dropWhile Char.isWhitespace).reverse⟩

/-- `[s.strip() for s in w.text.split(":")]`. -/
def splitColon (w : Word) : List String :=
  (splitOnChar ':' w.text.data).map fun l => pyStrip ⟨l⟩

/-- The docket-header formatting loop of `parse_charges_table`: iterate the
`":"`-split items in reverse index order; items that did not split into exactly
two fields are diverted to `extra` (unless they start with the docket number),
the rest are stored into the header dictionary.  Returns
`(extra, header_info_dict)`. -/
def buildHeaderInfo (docket_number : String) (items : List (List String)) :
    Except String (List String × List (String × String)) :=
  items.reverse.foldlM
    (fun acc value =>
      if value.length ≠ 2 then
        match value with
        | [] => Except.error "IndexError: value[0]"
        | v0 :: _ =>
          if v0 ≠ docket_number then Except.ok (acc.1 ++ value, acc.2)
          else Except.ok acc
      else
        match value with
        | [k, v] => Except.ok (acc.1, dictInsert acc.2 k v)
        | _ => Except.error "unreachable: length = 2")
    ([], [])

/-- `check_abs_diff(x0, x1, tol)` from `court_summary/utils.py`. -/
def check_abs_diff (x0 x1 tol : Int) : Bool := decide (|x0 - x1| ≤ tol)

/-- ASCII model of Python `str.isdigit` (non-empty, all digits). -/
def pyIsdigit (s : String) : Bool := !s.data.isEmpty && s.data.all Char.isDigit

/-- Python substring containment `pat in s`. -/
def containsSubstr (pat : List Char) : List Char → Bool
  | [] => pat.isEmpty
  | c :: rest => pat.isPrefixOf (c :: rest) || containsSubstr pat rest

/-- Python `==` between a string key and a sentence dictionary (the elements of
`row["sentences"]`): values of different types are never equal, so this is
constantly `false`.  It is spelled out so that the dead
`elif key in row["sentences"]` branch of the source stays visible. -/
def strDictEq (_k : String) (_d : SentDict) : Bool := false

/-- One key of the continuation-stitching loop of `parse_charges_table`
(OPTION 2B):

```
if key in row: row[key] += " " + line_dict[key]
elif key in row["sentences"]: row["sentences"][key] += " " + line_dict[key]
```

`+=` on the sentences list is a `TypeError`; `row["sentences"]` on a row
without that key is a `KeyError`; `key in row["sentences"]` is a membership
test of a string in a list of dictionaries, which never succeeds, and on
success would be the `TypeError` of indexing a list with a string key. -/
def stitchKey (row : List (String × RowVal)) (k v : String) :
    Except String (List (String × RowVal)) :=
  match dictLookup row k with
  | some (RowVal.s old) => Except.ok (dictInsert row k (RowVal.s (old ++ " " ++ v)))
  | some (RowVal.sentList _) => Except.error "TypeError: can only concatenate list (not str) to list"
  | none =>
    match dictLookup row "sentences" with
    | none => Except.error "KeyError: sentences"
    | some (RowVal.s sv) =>
      if containsSubstr k.data sv.data then Except.error "TypeError: string indices must be integers"
      else Except.ok row
    | some (RowVal.sentList sents) =>
      if sents.any (fun sdict => strDictEq k sdict) then Except.error "TypeError: list indices must be integers"
      else Except.ok row

/-- The loop state of the charges loop of `parse_charges_table`: the
in-progress `row`, the `header` variable (unassigned before the first charge:
`none`, its use then being a `NameError`), and the accumulated `charges`. -/
structure LoopState where
  row : List (String × RowVal)
  header : Option (List Word)
  charges : List (List (String × RowVal))
deriving DecidableEq, Repr

/-- The loop-invariant context of the charges loop. -/
structure ChargeCtx where
  docket_number : String
  header_values : List (List String)
  header_lines : List (List Word)
  multiline_header : Bool
deriving DecidableEq, Repr

/-- OPTION 2 of the charges loop: either a new sentence row (2A, when a
multiline header exists and the line is aligned with the second header's first
column) or a field continuation (2B, stitched key by key into the current
row). -/
def processContinuation (ctx : ChargeCtx) (st : LoopState) (line : List Word)
    (w0 : Word) : Except String LoopState :=
  let optionTwoB : Except String LoopState :=
    match st.header with
    | none => Except.error "NameError: name header is not defined"
    | some hdr =>
      match find_word_headers line hdr with
      | none => Except.error "ValueError: argmin of an empty sequence"
      | some line_dict =>
        match line_dict.foldlM (fun r kv => stitchKey r kv.1 kv.2) st.row with
        | Except.error e => Except.error e
        | Except.ok row2 => Except.ok { st with row := row2 }
  if ctx.multiline_header then
    match ctx.header_lines.get? 1 with
    | none => Except.error "IndexError: header_lines[1]"
    | some hl1 =>
      match hl1 with
      | [] => Except.error "IndexError: header_lines[1][0]"
      | h10 :: _ =>
        if check_abs_diff w0.x h10.x 1 then
          match find_word_headers line hl1 with
          | none => Except.error "ValueError: argmin of an empty sequence"
          | some line_dict =>
            match dictLookup st.row "sentences" with
            | none => Except.error "KeyError: sentences"
            | some (RowVal.s _) => Except.error "AttributeError: str has no append"
            | some (RowVal.sentList sents) =>
              Except.ok
                { row := dictInsert st.row "sentences" (RowVal.sentList (sents ++ [line_dict])),
                  header := some hl1,
                  charges := st.charges }
        else optionTwoB
  else optionTwoB

/-- Processing of one non-skipped line of the charges loop (OPTIONS 1, 2A,
2B).  `header_lines[0]` is only evaluated when the first word is numeric, as
in the short-circuiting source condition. -/
def processLine (ctx : ChargeCtx) (st : LoopState) (line : List Word) :
    Except String LoopState :=
  match line with
  | [] => Except.error "IndexError: line[0]"
  | w0 :: _ =>
    if pyIsdigit w0.text then
      match ctx.header_lines with
      | [] => Except.error "IndexError: header_lines[0]"
      | hl0 :: _ =>
        match hl0 with
        | [] => Except.error "IndexError: header_lines[0][0]"
        | h00 :: _ =>
          if check_abs_diff w0.x h00.x 1 then
            let charges :=
              if st.row.length ≠ 0 then st.charges ++ [st.row] else st.charges
            match find_word_headers line hl0 with
            | none => Except.error "ValueError: argmin of an empty sequence"
            | some rd =>
              let row := rd.map fun kv => (kv.1, RowVal.s kv.2)
              Except.ok
                { row := dictInsert row "sentences" (RowVal.sentList []),
                  header := some hl0,
                  charges := charges }
          else processContinuation ctx st line w0
    else processContinuation ctx st line w0

/-- The charges loop of `parse_charges_table` over the lines in ascending `y`
order.  A line whose texts match a recorded header row, or whose first word is
the docket number, is skipped by `continue` — which also skips the final-line
flush.  After processing the last line (`i == len(lines_y) - 1`) the
in-progress row is appended to the charges. -/
def chargesLoop (ctx : ChargeCtx) :
    LoopState → List (List Word) → Except String (List (List (String × RowVal)))
  | st, [] => Except.ok st.charges
  | st, line :: rest =>
    match line with
    | [] => Except.error "IndexError: line[0]"
    | w0 :: _ =>
      if decide (line.map Word.text ∈ ctx.header_values) || (w0.text == ctx.docket_number) then
        chargesLoop ctx st rest
      else
        match processLine ctx st line with
        | Except.error e => Except.error e
        | Except.ok st2 =>
          if rest.isEmpty then Except.ok (st2.charges ++ [st2.row])
          else chargesLoop ctx st2 rest

/-- `lines = group_into_lines(docket_body, tolerance=3)` followed by
`lines_y = sorted(lines)` and the per-iteration lookups `lines[y]`. -/
def docketLines (docket_body : List Word) : List (List Word) :=
  let lines := group_into_lines docket_body 3
  (pySorted (fun a b => decide (a ≤ b)) (lines.map Prod.fst)).filterMap
    fun y => dictLookup lines y

/-- The final per-charge formatting of `parse_charges_table`: snake-case the
keys, then snake-case the keys of every sentence dictionary
(`charge["sentences"] = [to_snake_case(s) for s in charge["sentences"]]`). -/
def formatCharge (r : List (String × RowVal)) :
    Except String (List (String × RowVal)) :=
  let r2 := to_snake_case r
  match dictLookup r2 "sentences" with
  | none => Except.error "KeyError: sentences"
  | some (RowVal.s _) => Except.error "AttributeError: str has no items"
  | some (RowVal.sentList ss) =>
    Except.ok (dictInsert r2 "sentences" (RowVal.sentList (ss.map fun s => to_snake_case s)))

/-- `parse_charges_table(docket_number, words)` from
`phl_courts_scraper/court_summary/utils.py`: analyse the header rows, split
the docket into header and body, format the header key/values (with the
`extra` bucket), run the charges loop over the body lines, and snake-case all
keys.  The `assert unique_header_nrows == 2` of the source is the
`AssertionError` case. -/
def parse_charges_table (docket_number : String) (words : List Word) :
    Except String DocketParse :=
  let (header_values, header_lines) := dedupHeaderLines (headerLinesAll words)
  let unique_header_nrows := header_lines.length
  let multiline_header : Bool := decide (unique_header_nrows > 1)
  if multiline_header && !(unique_header_nrows == 2) then
    Except.error "AssertionError: unique_header_nrows == 2"
  else
    let (docket_header, docket_body) := parse_docket_header words
    let header_info := (docket_header.drop 1).map splitColon
    match buildHeaderInfo docket_number header_info with
    | Except.error e => Except.error e
    | Except.ok (extra, header_info_dict) =>
      let ctx : ChargeCtx :=
        ⟨docket_number, header_values, header_lines, multiline_header⟩
      let chargesRun :=
        if docket_body.length ≠ 0 then
          chargesLoop ctx ⟨[], none, []⟩ (docketLines docket_body)
        else Except.ok []
      match chargesRun with
      | Except.error e => Except.error e
      | Except.ok charges =>
        let hdict :=
          to_snake_case (header_info_dict.map fun kv => (kv.1, HVal.s kv.2))
        let hdict := dictInsert hdict "extra" (HVal.strList extra)
        match charges.mapM formatCharge with
        | Except.error e => Except.error e
        | Except.ok charges2 => Except.ok ⟨hdict, charges2⟩

/-- The FIPS county-code table `COUNTY_CODES` of
`phl_courts_scraper/court_summary/utils.py`, in source order. -/
def COUNTY_CODES : List (String × String) :=
  [("1", "Adams"), ("35", "Lackawanna"), ("2", "Allegheny"), ("36", "Lancaster"),
   ("3", "Armstrong"), ("37", "Lawrence"), ("4", "Beaver"), ("38", "Lebanon"),
   ("5", "Bedford"), ("39", "Lehigh"), ("6", "Berks"), ("40", "Luzerne"),
   ("7", "Blair"), ("41", "Lycoming"), ("8", "Bradford"), ("42", "McKean"),
   ("9", "Bucks"), ("43", "Mercer"), ("10", "Butler"), ("44", "Mifflin"),
   ("11", "Cambria"), ("45", "Monroe"), ("12", "Cameron"), ("46", "Montgomery"),
   ("13", "Carbon"), ("47", "Montour"), ("14", "Centre"), ("48", "Northampton"),
   ("15", "Chester"), ("49", "Northumberland"), ("16", "Clarion"), ("50", "Perry"),
   ("17", "Clearfield"), ("51", "Philadelphia"), ("18", "Clinton"), ("52", "Pike"),
   ("19", "Columbia"), ("53", "Potter"), ("20", "Crawford"), ("54", "Schuylkill"),
   ("21", "Cumberland"), ("55", "Snyder"), ("22", "Dauphin"), ("56", "Somerset"),
   ("23", "Delaware"), ("57", "Sullivan"), ("24", "Elk"), ("58", "Susquehanna"),
   ("25", "Erie"), ("59", "Tioga"), ("26", "Fayette"), ("60", "Union"),
   ("27", "Forest"), ("61", "Venango"), ("28", "Franklin"), ("62", "Warren"),
   ("29", "Fulton"), ("63", "Washington"), ("30", "Greene"), ("64", "Wayne"),
   ("31", "Huntingdon"), ("65", "Westmoreland"), ("32", "Indiana"), ("66", "Wyoming"),
   ("33", "Jefferson"), ("67", "York"), ("34", "Juniata")]

/-- Matching of the regex branch `.* County Court of Common Pleas` at the start
of a string: some occurrence of the literal is preceded only by non-newline
characters (`.` does not match a newline). -/
def noNLPrefixContains (pat : List Char) : List Char → Bool
  | [] => pat.isEmpty
  | c :: rest => pat.isPrefixOf (c :: rest) || (!(c == '\n') && noNLPrefixContains pat rest)

/-- `re.match(header_pattern, text)` for the pattern
`"(First Judicial District of Pennsylvania)|(.* County Court of Common Pleas)"`
of `yield_dockets` (anchored at the start of the text). -/
def matchesHeaderPattern (s : String) : Bool :=
  "First Judicial District of Pennsylvania".data.isPrefixOf s.data ||
  noNLPrefixContains " County Court of Common Pleas".data s.data

/-- One header block of the in-place deletion loop of `yield_dockets`: for
`i` in `reversed(range(0, 5))`, delete `dockets[pg + i]` when it is still in
range (using the current length) and its text is boilerplate. -/
def deleteHeaderBlock (dockets : List Word) (pg : Nat) : List Word :=
  [4, 3, 2, 1, 0].foldl
    (fun ds i =>
      if pg + i < ds.length - 1 then
        match ds.get? (pg + i) with
        | none => ds
        | some w =>
          if w.text == "Court Summary" || matchesHeaderPattern w.text ||
              containsSubstr "Continued".data w.text.data then
            ds.eraseIdx (pg + i)
          else ds
      else ds)
    dockets

/-- The header-deletion preamble of `yield_dockets`: visit each match of the
header pattern in reverse index order and delete its boilerplate block. -/
def delete_headers (dockets : List Word) : List Word :=
  (find_line_numbers dockets matchesHeaderPattern).reverse.foldl deleteHeaderBlock dockets

/-- `w.text.startswith("MC-") or w.text.startswith("CP-")`. -/
def startsWithDocketPre (s : String) : Bool :=
  "MC-".data.isPrefixOf s.data || "CP-".data.isPrefixOf s.data

/-- The docket-number collection of `yield_dockets`: the `(index, text)` pairs
of the words whose text starts with a docket-number prefix. -/
def docketInfo (dockets : List Word) : List (Nat × String) :=
  (dockets.enum.filter fun pr => startsWithDocketPre pr.2.text).map
    fun pr => (pr.1, pr.2.text)

/-- Accumulating decimal digit parser (`none` on a non-digit). -/
def digitsToNatAux : List Char → Nat → Option Nat
  | [], acc => some acc
  | c :: rest, acc =>
    if c.isDigit then digitsToNatAux rest (acc * 10 + (c.toNat - 48)) else none

/-- Parse a non-empty all-digit character list as a natural number. -/
def digitsToNat : List Char → Option Nat
  | [] => none
  | c :: rest => digitsToNatAux (c :: rest) 0

/-- Python `int(s)`: strip whitespace, then an optional sign followed by
decimal digits (`none` models the `ValueError`). -/
def pyInt (s : String) : Option Int :=
  match (pyStrip s).data with
  | '-' :: rest => (digitsToNat rest).map fun n => -(n : Int)
  | '+' :: rest => (digitsToNat rest).map fun n => (n : Int)
  | t => (digitsToNat t).map fun n => (n : Int)

/-- The county resolution of `yield_dockets`:
`county_code = int(this_docket_num.split("-")[1])` followed by
`COUNTY_CODES[str(county_code)]`.  Errors model the `IndexError`,
`ValueError` and `KeyError` of the source. -/
def countyOf (this_docket_num : String) : Except String String :=
  match ((splitOnChar '-' this_docket_num.data).map (fun l => (⟨l⟩ : String))).get? 1 with
  | none => Except.error "IndexError: split"
  | some seg =>
    match pyInt seg with
    | none => Except.error "ValueError: invalid literal for int"
    | some county_code =>
      match dictLookup COUNTY_CODES (toString county_code) with
      | none => Except.error "KeyError: county code"
      | some county => Except.ok county

/-- The `while` scan of `yield_dockets` advancing `j` past consecutive
occurrences of the same docket number, on the list suffix starting at `j`. -/
def nextDiffAux (dn : String) : List String → Nat → Nat
  | [], j => j
  | x :: rest, j => if x = dn then nextDiffAux dn rest (j + 1) else j

/-- `j = i + 1; while j < len(docket_numbers) and docket_numbers[j] == dn: j += 1`. -/
def nextDiff (nums : List String) (dn : String) (j : Nat) : Nat :=
  nextDiffAux dn (nums.drop j) j

/-- Python slice `l[start:stop]` with an optional stop (`None` meaning the end
of the list). -/
def pySlice {α : Type} (l : List α) (start : Nat) (stop : Option Nat) : List α :=
  match stop with
  | none => l.drop start
  | some j => (l.take j).drop start

/-- The yielding loop of `yield_dockets` over the docket-number occurrence
indices `idxs` (instantiated with `range(len(docket_numbers))`): skip numbers
already in `returned`, otherwise scan past consecutive duplicates, resolve the
county and yield the token slice. -/
def yieldLoopAux (dockets : List Word) (pairs : List (Nat × String)) :
    List Nat → List String → Except String (List (String × String × List Word))
  | [], _ => Except.ok []
  | i :: restIdx, returned =>
    match pairs.get? i with
    | none => Except.error "IndexError: docket_numbers[i]"
    | some (start, this_docket_num) =>
      if this_docket_num ∈ returned then yieldLoopAux dockets pairs restIdx returned
      else
        let j := nextDiff (pairs.map Prod.snd) this_docket_num (i + 1)
        let stop := (pairs.get? j).map Prod.fst
        match countyOf this_docket_num with
        | Except.error e => Except.error e
        | Except.ok county =>
          match yieldLoopAux dockets pairs restIdx (returned ++ [this_docket_num]) with
          | Except.error e => Except.error e
          | Except.ok rest =>
            Except.ok ((this_docket_num, county, pySlice dockets start stop) :: rest)

/-- The yielding phase of `yield_dockets` (everything after the header
deletion), run to completion. -/
def yieldLoop (dockets : List Word) (pairs : List (Nat × String)) :
    Except String (List (String × String × List Word)) :=
  yieldLoopAux dockets pairs (List.range pairs.length) []

/-- `yield_dockets(dockets)` from `phl_courts_scraper/court_summary/utils.py`:
delete running headers in place, collect docket-number occurrences, and yield
one `(docket_number, county, slice)` triple per not-yet-returned docket
number. -/
def yield_dockets (dockets : List Word) :
    Except String (List (String × String × List Word)) :=
  let ds := delete_headers dockets
  yieldLoop ds (docketInfo ds)

/-- The index (into the occurrence list) of the first occurrence of docket
number `v`, and the end of its consecutive run: the bounds of the token slice
yielded for `v`.  (`firstRunStart` is the slice's starting token position,
`firstRunStop` its stopping token position, `none` meaning end of stream.) -/
def firstRunStart (pairs : List (Nat × String)) (v : String) : Option Nat :=
  (pairs.get? ((pairs.map Prod.snd).findIdx fun x => x == v)).map Prod.fst

/-- The stopping token position of the slice yielded for docket number `v`:
the position of the next distinct docket number after `v`'s first consecutive
run, if any. -/
def firstRunStop (pairs : List (Nat × String)) (v : String) : Option Nat :=
  (pairs.get?
    (nextDiff (pairs.map Prod.snd) v
      (((pairs.map Prod.snd).findIdx fun x => x == v) + 1))).map Prod.fst

/-- The token slice yielded for docket number `v` as characterised by the
duplicate-skip policy: from its first occurrence past all consecutive repeats
up to the next distinct docket number (or the end of the stream). -/
def groupSliceOf (ds : List Word) (pairs : List (Nat × String)) (v : String) :
    List Word :=
  match firstRunStart pairs v with
  | none => []
  | some a => pySlice ds a (firstRunStop pairs v)

/-- Membership of token position `p` in the half-open position span
`[a, b)` (`b = none` meaning unbounded). -/
def inSpan (a : Nat) (b : Option Nat) (p : Nat) : Prop :=
  a ≤ p ∧ ∀ e, b = some e → p < e

/-- Disjointness of two token-position spans: no position lies in both. -/
def spanDisjoint (a1 : Nat) (b1 : Option Nat) (a2 : Nat) (b2 : Option Nat) : Prop :=
  ∀ p, inSpan a1 b1 p → ¬ inSpan a2 b2 p

/-- The recognised section titles of `CourtSummaryParser.__call__`, in source
order. -/
def sectionHeadersList : List String :=
  ["Active", "Closed", "Inactive", "Archived", "Adjudicated"]

/-- The `starts` dictionary of `CourtSummaryParser.__call__`
(`phl_courts_scraper/court_summary/core.py`): for each recognised section
title, its first word index in the document, when present. -/
def sectionStarts (words : List Word) : List (String × Nat) :=
  sectionHeadersList.foldl
    (fun starts header =>
      match find_line_number_eq words header with
      | none => starts
      | some line => dictInsert starts header line)
    []

/-- Python `s[1]` for the fixed section titles (each at least two characters
long, so the `IndexError` branch is unreachable and a default is supplied). -/
def charAt1 (s : String) : Char := s.data.getD 1 (Char.ofNat 0)

/-- `sections = sorted(starts, key=itemgetter(1))` from
`CourtSummaryParser.__call__`: iterating a dict yields its *keys* (the section
title strings), so `itemgetter(1)` extracts the second *character* of each
title and the sort orders titles by that character — not by start line. -/
def sections (words : List Word) : List String :=
  pySorted (fun a b => decide (charAt1 a ≤ charAt1 b))
    ((sectionStarts words).map Prod.fst)

/-- The section-slicing loop of `CourtSummaryParser.__call__`: for each
section (in the `sections` order, skipping `"Archived"`), slice
`words[this_section_start:next_section_start]`.  The dictionary lookups cannot
fail (every section name comes from `starts`), so a default is supplied. -/
def sectionSlices (words : List Word) : List (String × List Word) :=
  let starts := sectionStarts words
  let secs := sections words
  secs.enum.filterMap fun pr =>
    if pr.2 == "Archived" then none
    else
      let next_start : Option Nat :=
        match secs.get? (pr.1 + 1) with
        | none => none
        | some ns => dictLookup starts ns
      some (pr.2, pySlice words ((dictLookup starts pr.2).getD 0) next_start)

/-! ## Serialization model (`DataclassSchema`, `TimeField`, `schema.py`)

`to_json`/`from_json` are `json.dumps`/`json.loads` around
`desert.schema(cls).dump`/`.load`; the JSON text layer (the standard
library's `json`) is a faithful bijection between JSON trees and strings, so
serialization is modelled at the JSON-tree level (`J`). -/

/-- Sequential effectful map over `Except` (how `marshmallow` loads the items
of a list field: the first item error aborts the load). -/
def exceptMapM {α β : Type} (f : α → Except String β) : List α → Except String (List β)
  | [] => Except.ok []
  | a :: rest =>
    match f a with
    | Except.error e => Except.error e
    | Except.ok b =>
      match exceptMapM f rest with
      | Except.error e => Except.error e
      | Except.ok bs => Except.ok (b :: bs)

/-- A JSON value tree (only the shapes the schema dump can produce are
needed). -/
inductive J where
  | s (v : String)
  | arr (l : List J)
  | obj (l : List (String × J))
deriving Repr

/-- A Gregorian calendar date, modelling the Python `datetime` values held by
the `TimeField` fields (format `"%m/%d/%Y"` carries no sub-day data). -/
structure PyDate where
  year : Nat
  month : Nat
  day : Nat
deriving DecidableEq, Repr

/-- Gregorian leap-year rule (as in Python `datetime`). -/
def isLeapYear (y : Nat) : Bool := (y % 4 == 0 && y % 100 != 0) || (y % 400 == 0)

/-- Days in a month (as in Python `datetime`). -/
def daysInMonth (y m : Nat) : Nat :=
  if m == 2 then (if isLeapYear y then 29 else 28)
  else if m == 4 || m == 6 || m == 9 || m == 11 then 30 else 31

/-- Validity of a date as accepted by Python `datetime.strptime` with format
`"%m/%d/%Y"` (year in `[1, 9999]`, valid month and day). -/
def dateValid (d : PyDate) : Bool :=
  decide (1 ≤ d.year) && decide (d.year ≤ 9999) && decide (1 ≤ d.month) &&
  decide (d.month ≤ 12) && decide (1 ≤ d.day) &&
  decide (d.day ≤ daysInMonth d.year d.month)

/-- The decimal digit characters. -/
def digitChar (k : Nat) : Char :=
  match k with
  | 0 => '0' | 1 => '1' | 2 => '2' | 3 => '3' | 4 => '4'
  | 5 => '5' | 6 => '6' | 7 => '7' | 8 => '8' | _ => '9'

/-- Fuelled decimal printer (the fuel, always `n + 1`, keeps the recursion
structural). -/
def natDigitsAux : Nat → Nat → List Char
  | 0, _ => []
  | fuel + 1, n =>
    if n < 10 then [digitChar n]
    else natDigitsAux fuel (n / 10) ++ [digitChar (n % 10)]

/-- The decimal digits of `n` (Python `str(n)` for a natural number). -/
def natDigits (n : Nat) : List Char := natDigitsAux (n + 1) n

/-- Zero-padding to two digits, as `strftime` does for `%m` and `%d`. -/
def pad2 (n : Nat) : List Char := if n < 10 then '0' :: natDigits n else natDigits n

/-- `datetime.strftime("%m/%d/%Y")`. -/
def formatDate (d : PyDate) : String :=
  ⟨pad2 d.month ++ '/' :: (pad2 d.day ++ '/' :: natDigits d.year)⟩

/-- `datetime.strptime(s, "%m/%d/%Y")`: three `/`-separated all-digit fields
(month and day at most two digits, year at most four), forming a valid
date. -/
def parseDate (s : String) : Option PyDate :=
  match splitOnChar '/' s.data with
  | [m, d, y] =>
    match digitsToNat m, digitsToNat d, digitsToNat y with
    | some mn, some dn, some yn =>
      if decide (m.length ≤ 2) && decide (d.length ≤ 2) && decide (y.length ≤ 4)
          && dateValid ⟨yn, mn, dn⟩ then
        some ⟨yn, mn, dn⟩
      else none
    | _, _, _ => none
  | _ => none

/-- The value of a `TimeField`-typed dataclass attribute.  `blank` is the
dataclass default `""`, which `marshmallow` stores verbatim on a missing key
(it never goes through `_deserialize`); `pynone` is Python `None`, produced by
deserialising `""`; `date` is a parsed `datetime`. -/
inductive DateField where
  | blank
  | pynone
  | date (d : PyDate)
deriving DecidableEq, Repr

/-- `TimeField._serialize`: falsy values (`""`, `None`) serialize to `""`,
datetimes to their `"%m/%d/%Y"` rendering. -/
def dumpTime : DateField → J
  | DateField.blank => J.s ""
  | DateField.pynone => J.s ""
  | DateField.date d => J.s (formatDate d)

/-- `TimeField._deserialize` on a present value: `""` becomes `None`, any
other string is parsed with `strptime` (a parse failure is the
`ValidationError` of `marshmallow.fields.DateTime`). -/
def loadTimeVal : J → Except String DateField
  | J.s v =>
    if v == "" then Except.ok DateField.pynone
    else
      match parseDate v with
      | some d => Except.ok (DateField.date d)
      | none => Except.error "ValidationError: not a valid datetime"
  | _ => Except.error "ValidationError: not a valid datetime"

/-- Loading a required `TimeField` (no dataclass default): a missing key is a
`ValidationError`. -/
def loadTimeReq : Option J → Except String DateField
  | none => Except.error "ValidationError: missing required field"
  | some j => loadTimeVal j

/-- Loading a `TimeField` with dataclass default `""`: a missing key yields
the default verbatim (`blank`), without deserialization. -/
def loadTimeD : Option J → Except String DateField
  | none => Except.ok DateField.blank
  | some j => loadTimeVal j

/-- Loading a required `marshmallow.fields.String`. -/
def loadStr : Option J → Except String String
  | some (J.s v) => Except.ok v
  | some _ => Except.error "ValidationError: not a valid string"
  | none => Except.error "ValidationError: missing required field"

/-- Loading a `String` field with a dataclass default. -/
def loadStrD (dflt : String) : Option J → Except String String
  | none => Except.ok dflt
  | some (J.s v) => Except.ok v
  | some _ => Except.error "ValidationError: not a valid string"

/-- Loading a required `List[str]` field. -/
def loadStrList : Option J → Except String (List String)
  | none => Except.error "ValidationError: missing required field"
  | some (J.arr l) =>
    exceptMapM
      (fun j =>
        match j with
        | J.s v => Except.ok v
        | _ => Except.error "ValidationError: not a valid string")
      l
  | some _ => Except.error "ValidationError: not a valid list"

/-- Loading the required `extra: List[Any]` field (`marshmallow` `Raw` items
pass through unchanged; the parser only ever stores lists of strings there,
which is the shape modelled). -/
def loadStrListList : Option J → Except String (List (List String))
  | none => Except.error "ValidationError: missing required field"
  | some (J.arr l) => exceptMapM (fun j => loadStrList (some j)) l
  | some _ => Except.error "ValidationError: not a valid list"

/-- The `Sentence` dataclass of `court_summary/schema.py`. -/
structure Sentence where
  sentence_type : String
  sentence_dt : DateField
  program_period : String
  sentence_length : String
deriving DecidableEq, Repr

/-- `desert.schema(Sentence).dump`, in field order. -/
def Sentence.to_dict (s : Sentence) : J :=
  J.obj [("sentence_type", J.s s.sentence_type),
         ("sentence_dt", dumpTime s.sentence_dt),
         ("program_period", J.s s.program_period),
         ("sentence_length", J.s s.sentence_length)]

/-- `desert.schema(Sentence).load`. -/
def Sentence.from_dict : J → Except String Sentence
  | J.obj l => do
    let st ← loadStr (dictLookup l "sentence_type")
    let dt ← loadTimeReq (dictLookup l "sentence_dt")
    let pp ← loadStrD "" (dictLookup l "program_period")
    let sl ← loadStrD "" (dictLookup l "sentence_length")
    Except.ok ⟨st, dt, pp, sl⟩
  | _ => Except.error "ValidationError: invalid input type"

/-- The `Charge` dataclass of `court_summary/schema.py`. -/
structure Charge where
  seq_no : String
  statute : String
  description : String
  grade : String
  disposition : String
  sentences : List Sentence
deriving DecidableEq, Repr

/-- `desert.schema(Charge).dump`, in field order. -/
def Charge.to_dict (c : Charge) : J :=
  J.obj [("seq_no", J.s c.seq_no),
         ("statute", J.s c.statute),
         ("description", J.s c.description),
         ("grade", J.s c.grade),
         ("disposition", J.s c.disposition),
         ("sentences", J.arr (c.sentences.map Sentence.to_dict))]

/-- Loading the `sentences: List[Sentence]` field (default `[]`). -/
def loadSentences : Option J → Except String (List Sentence)
  | none => Except.ok []
  | some (J.arr l) => exceptMapM Sentence.from_dict l
  | some _ => Except.error "ValidationError: not a valid list"

/-- `desert.schema(Charge).load`. -/
def Charge.from_dict : J → Except String Charge
  | J.obj l => do
    let sn ← loadStr (dictLookup l "seq_no")
    let st ← loadStr (dictLookup l "statute")
    let de ← loadStrD "" (dictLookup l "description")
    let gr ← loadStrD "" (dictLookup l "grade")
    let di ← loadStrD "" (dictLookup l "disposition")
    let se ← loadSentences (dictLookup l "sentences")
    Except.ok ⟨sn, st, de, gr, di, se⟩
  | _ => Except.error "ValidationError: invalid input type"

/-- The `Docket` dataclass of `court_summary/schema.py`. -/
structure Docket where
  docket_number : String
  proc_status : String
  dc_no : String
  otn : String
  county : String
  status : String
  extra : List (List String)
  arrest_dt : DateField
  psi_num : String
  prob_num : String
  disp_judge : String
  def_atty : String
  legacy_no : String
  last_action : String
  last_action_room : String
  next_action : String
  next_action_room : String
  next_action_date : DateField
  last_action_date : DateField
  trial_dt : DateField
  disp_date : DateField
  charges : List Charge
deriving DecidableEq, Repr

/-- `desert.schema(Docket).dump`, in field order. -/
def Docket.to_dict (d : Docket) : J :=
  J.obj [("docket_number", J.s d.docket_number),
         ("proc_status", J.s d.proc_status),
         ("dc_no", J.s d.dc_no),
         ("otn", J.s d.otn),
         ("county", J.s d.county),
         ("status", J.s d.status),
         ("extra", J.arr (d.extra.map fun e => J.arr (e.map J.s))),
         ("arrest_dt", dumpTime d.arrest_dt),
         ("psi_num", J.s d.psi_num),
         ("prob_num", J.s d.prob_num),
         ("disp_judge", J.s d.disp_judge),
         ("def_atty", J.s d.def_atty),
         ("legacy_no", J.s d.legacy_no),
         ("last_action", J.s d.last_action),
         ("last_action_room", J.s d.last_action_room),
         ("next_action", J.s d.next_action),
         ("next_action_room", J.s d.next_action_room),
         ("next_action_date", dumpTime d.next_action_date),
         ("last_action_date", dumpTime d.last_action_date),
         ("trial_dt", dumpTime d.trial_dt),
         ("disp_date", dumpTime d.disp_date),
         ("charges", J.arr (d.charges.map Charge.to_dict))]

/-- Loading the `charges: List[Charge]` field (default `[]`). -/
def loadCharges : Option J → Except String (List Charge)
  | none => Except.ok []
  | some (J.arr l) => exceptMapM Charge.from_dict l
  | some _ => Except.error "ValidationError: not a valid list"

/-- `desert.schema(Docket).load`. -/
def Docket.from_dict : J → Except String Docket
  | J.obj l => do
    let dn ← loadStr (dictLookup l "docket_number")
    let ps ← loadStr (dictLookup l "proc_status")
    let dc ← loadStr (dictLookup l "dc_no")
    let ot ← loadStr (dictLookup l "otn")
    let co ← loadStr (dictLookup l "county")
    let st ← loadStr (dictLookup l "status")
    let ex ← loadStrListList (dictLookup l "extra")
    let ad ← loadTimeReq (dictLookup l "arrest_dt")
    let pn ← loadStrD "" (dictLookup l "psi_num")
    let pb ← loadStrD "" (dictLookup l "prob_num")
    let dj ← loadStrD "" (dictLookup l "disp_judge")
    let da ← loadStrD "" (dictLookup l "def_atty")
    let ln ← loadStrD "" (dictLookup l "legacy_no")
    let la ← loadStrD "" (dictLookup l "last_action")
    let lr ← loadStrD "" (dictLookup l "last_action_room")
    let na ← loadStrD "" (dictLookup l "next_action")
    let nr ← loadStrD "" (dictLookup l "next_action_room")
    let nd ← loadTimeD (dictLookup l "next_action_date")
    let ld ← loadTimeD (dictLookup l "last_action_date")
    let td ← loadTimeD (dictLookup l "trial_dt")
    let dd ← loadTimeD (dictLookup l "disp_date")
    let ch ← loadCharges (dictLookup l "charges")
    Except.ok ⟨dn, ps, dc, ot, co, st, ex, ad, pn, pb, dj, da, ln, la, lr, na, nr, nd, ld, td, dd, ch⟩
  | _ => Except.error "ValidationError: invalid input type"

/-- The `CourtSummary` dataclass of `court_summary/schema.py`. -/
structure CourtSummary where
  name : String
  date_of_birth : String
  eyes : String
  sex : String
  hair : String
  race : String
  location : String
  aliases : List String
  dockets : List Docket
deriving DecidableEq, Repr

/-- `desert.schema(CourtSummary).dump`, in field order (the payload of
`CourtSummary.to_json`). -/
def CourtSummary.to_dict (c : CourtSummary) : J :=
  J.obj [("name", J.s c.name),
         ("date_of_birth", J.s c.date_of_birth),
         ("eyes", J.s c.eyes),
         ("sex", J.s c.sex),
         ("hair", J.s c.hair),
         ("race", J.s c.race),
         ("location", J.s c.location),
         ("aliases", J.arr (c.aliases.map J.s)),
         ("dockets", J.arr (c.dockets.map Docket.to_dict))]

/-- Loading the required `dockets: List[Docket]` field. -/
def loadDockets : Option J → Except String (List Docket)
  | none => Except.error "ValidationError: missing required field"
  | some (J.arr l) => exceptMapM Docket.from_dict l
  | some _ => Except.error "ValidationError: not a valid list"

/-- `desert.schema(CourtSummary).load` (the payload of
`CourtSummary.from_json`). -/
def CourtSummary.from_dict : J → Except String CourtSummary
  | J.obj l => do
    let nm ← loadStr (dictLookup l "name")
    let db ← loadStr (dictLookup l "date_of_birth")
    let ey ← loadStr (dictLookup l "eyes")
    let sx ← loadStr (dictLookup l "sex")
    let hr ← loadStr (dictLookup l "hair")
    let rc ← loadStr (dictLookup l "race")
    let lo ← loadStr (dictLookup l "location")
    let al ← loadStrList (dictLookup l "aliases")
    let dk ← loadDockets (dictLookup l "dockets")
    Except.ok ⟨nm, db, ey, sx, hr, rc, lo, al, dk⟩
  | _ => Except.error "ValidationError: invalid input type"

/-- A `DateField` value that deserialization can reproduce: `None` or a valid
parsed datetime (the verbatim `blank` default is exactly what round-tripping
cannot reproduce). -/
def DateField.rt : DateField → Bool
  | DateField.blank => false
  | DateField.pynone => true
  | DateField.date d => dateValid d

/-- All date fields of a `Sentence` are round-trippable. -/
def Sentence.rt (s : Sentence) : Bool := s.sentence_dt.rt

/-- All date fields of a `Charge` are round-trippable. -/
def Charge.rt (c : Charge) : Bool := c.sentences.all Sentence.rt

/-- All date fields of a `Docket` are round-trippable. -/
def Docket.rt (d : Docket) : Bool :=
  d.arrest_dt.rt && d.next_action_date.rt && d.last_action_date.rt &&
  d.trial_dt.rt && d.disp_date.rt && d.charges.all Charge.rt

/-- All date fields of a `CourtSummary` are round-trippable (every value a
successful parse stores in a date field, other than the verbatim `""`
default of a missing optional key, satisfies this). -/
def CourtSummary.rt (c : CourtSummary) : Bool := c.dockets.all Docket.rt

/-! ## Spec-side helpers used only in theorem statements -/

/-- The docket-number occurrence list underlying a `yield_dockets` run (after
header deletion). -/
def yieldPairs (dockets : List Word) : List (Nat × String) :=
  docketInfo (delete_headers dockets)

/-- Occurrence index `k` is the first occurrence of its docket number. -/
def isFirstOcc (nums : List String) (k : Nat) : Prop :=
  ∀ k2, k2 < k → nums.get? k2 ≠ nums.get? k

/-! ## Concrete inputs for counterexamples and witnesses -/

/-- C1 input: a single-row header (`Seq No`, `Statute`), one charge line
carrying only a `Seq No` token, then a continuation line whose token maps to
the `Statute` column — a key present neither in the row nor among its
sentences. -/
def wordsC1 : List Word :=
  [⟨0, 30, 0, 2, "title"⟩,
   ⟨0, 60, 10, 12, "Seq No"⟩,
   ⟨50, 80, 10, 12, "Statute"⟩,
   ⟨0, 5, 20, 22, "1"⟩,
   ⟨50, 60, 30, 32, "B"⟩]

/-- C4 input: a header, one complete charge line, and a final line consisting
of the docket-number token alone (a line the loop skips). -/
def wordsC4 : List Word :=
  [⟨0, 30, 0, 2, "title"⟩,
   ⟨0, 60, 10, 12, "Seq No"⟩,
   ⟨50, 80, 10, 12, "Statute"⟩,
   ⟨0, 5, 20, 22, "1"⟩,
   ⟨50, 60, 20, 22, "A"⟩,
   ⟨0, 40, 30, 32, "CP-51-CR-1"⟩]

/-- C2 input: a document in which `Adjudicated` (word index 0) precedes
`Active` (word index 1). -/
def wordsC2 : List Word :=
  [⟨0, 40, 0, 2, "Adjudicated"⟩, ⟨0, 30, 10, 12, "Active"⟩]

/-- C3 input: three words at `y = 0`, `y = 10`, `y = -9`; with tolerance 10
the point query at `y = 0` gathers all three. -/
def wordsC3 : List Word :=
  [⟨0, 5, 0, 2, "a"⟩, ⟨1, 6, 10, 12, "b"⟩, ⟨2, 7, -9, -7, "c"⟩]

/-- C7 header: a single column at `x = 0`. -/
def headerC7 : List Word := [⟨0, 20, 0, 2, "Col"⟩]

/-- C7 line: two tokens that both map to the single column. -/
def lineC7 : List Word := [⟨1, 3, 10, 12, "a"⟩, ⟨2, 4, 10, 12, "b"⟩]

/-- C7 line reordered. -/
def lineC7rev : List Word := [⟨2, 4, 10, 12, "b"⟩, ⟨1, 3, 10, 12, "a"⟩]

/-- C7 witness inputs: two tokens mapping to two distinct columns. -/
def headerC7w : List Word := [⟨0, 20, 0, 2, "Col1"⟩, ⟨50, 70, 0, 2, "Col2"⟩]

/-- C7 witness line. -/
def lineC7w : List Word := [⟨1, 3, 10, 12, "a"⟩, ⟨51, 53, 10, 12, "b"⟩]

/-- C7 witness line, reordered. -/
def lineC7wRev : List Word := [⟨51, 53, 10, 12, "b"⟩, ⟨1, 3, 10, 12, "a"⟩]

/-- C5/C6 witness input: two distinct docket numbers with an interleaved
duplicate occurrence of the first. -/
def wordsC5 : List Word :=
  [⟨0, 40, 0, 2, "MC-51-CR-0000001-2021"⟩,
   ⟨0, 30, 1, 3, "hello"⟩,
   ⟨0, 40, 2, 4, "CP-46-CR-7-2021"⟩,
   ⟨0, 40, 3, 5, "MC-51-CR-0000001-2021"⟩,
   ⟨0, 30, 4, 6, "world"⟩]

/-- C6 input with a county code absent from the table. -/
def wordsC6bad : List Word := [⟨0, 40, 0, 2, "MC-99-CR-1"⟩]

/-- The groups yielded from `wordsC5`: one group per distinct docket number;
the interleaved duplicate occurrence (index 3) and everything after it appear
in no slice. -/
def gsC5 : List (String × String × List Word) :=
  [("MC-51-CR-0000001-2021", "Philadelphia",
    [⟨0, 40, 0, 2, "MC-51-CR-0000001-2021"⟩, ⟨0, 30, 1, 3, "hello"⟩]),
   ("CP-46-CR-7-2021", "Montgomery", [⟨0, 40, 2, 4, "CP-46-CR-7-2021"⟩])]

/-- C8: the serialized form of a docket whose optional date keys are absent
(the shape a parse of a document without those header fields produces). -/
def jDocketC8 : J :=
  J.obj [("docket_number", J.s "CP-51-CR-1"),
         ("proc_status", J.s "active"),
         ("dc_no", J.s "dc"),
         ("otn", J.s "otn"),
         ("county", J.s "Philadelphia"),
         ("status", J.s "active"),
         ("extra", J.arr []),
         ("arrest_dt", J.s "01/02/2021")]

/-- C8: a whole court summary document with one such docket. -/
def jInputC8 : J :=
  J.obj [("name", J.s "Bob"),
         ("date_of_birth", J.s "01/01/1990"),
         ("eyes", J.s "brown"),
         ("sex", J.s "m"),
         ("hair", J.s "black"),
         ("race", J.s "w"),
         ("location", J.s "phl"),
         ("aliases", J.arr [J.s "Bobby"]),
         ("dockets", J.arr [jDocketC8])]

/-- C8: the docket loaded from `jDocketC8` — the optional date fields hold the
verbatim dataclass default `""` (`blank`). -/
def docketC8 : Docket :=
  ⟨"CP-51-CR-1", "active", "dc", "otn", "Philadelphia", "active", [],
   DateField.date ⟨2021, 1, 2⟩, "", "", "", "", "", "", "", "", "",
   DateField.blank, DateField.blank, DateField.blank, DateField.blank, []⟩

/-- C8: the court summary loaded from `jInputC8`. -/
def csC8 : CourtSummary :=
  ⟨"Bob", "01/01/1990", "brown", "m", "black", "w", "phl", ["Bobby"], [docketC8]⟩

/-- C8: the court summary obtained after one serialize/deserialize round trip
of `csC8`: every `""` default has become `None`. -/
def csC8' : CourtSummary :=
  ⟨"Bob", "01/01/1990", "brown", "m", "black", "w", "phl", ["Bobby"],
   [⟨"CP-51-CR-1", "active", "dc", "otn", "Philadelphia", "active", [],
     DateField.date ⟨2021, 1, 2⟩, "", "", "", "", "", "", "", "", "",
     DateField.pynone, DateField.pynone, DateField.pynone, DateField.pynone, []⟩]⟩

/-- C8 witness: a fully round-trippable court summary. -/
def csC8w : CourtSummary :=
  ⟨"Bob", "01/01/1990", "brown", "m", "black", "w", "phl", ["Bobby"],
   [⟨"CP-51-CR-1", "active", "dc", "otn", "Philadelphia", "active", [["x", "y"]],
     DateField.date ⟨2021, 1, 2⟩, "", "", "", "", "", "", "", "", "",
     DateField.pynone, DateField.date ⟨2020, 2, 29⟩, DateField.pynone, DateField.pynone,
     [⟨"1", "st", "de", "M2", "Guilty",
       [⟨"Probation", DateField.date ⟨2021, 12, 31⟩, "", ""⟩]⟩]⟩]⟩

/-- C10 witness line and header: two tokens on distinct columns, one repeated
column token. -/
def headerC10 : List Word := [⟨0, 20, 0, 2, "Col1"⟩, ⟨50, 70, 0, 2, "Col2"⟩]

/-- C10 witness line: the two tokens at `x = 50, 52` both map to `Col2`; the
later one wins. -/
def lineC10 : List Word :=
  [⟨1, 3, 10, 12, "a"⟩, ⟨50, 52, 10, 12, "b"⟩, ⟨52, 54, 10, 12, "c"⟩]

/-- C1 witness row for the amended claim: a row with a `sentences` list and
without the key `"Statute"`. -/
def rowC1 : List (String × RowVal) :=
  [("Seq No", RowVal.s "1"), ("sentences", RowVal.sentList [])]

/-- C4 witness context: the charge context arising from `wordsC4`. -/
def ctxC4 : ChargeCtx :=
  ⟨"CP-51-CR-1", [["Seq No", "Statute"]],
   [[⟨0, 60, 10, 12, "Seq No"⟩, ⟨50, 80, 10, 12, "Statute"⟩]], false⟩

/-- C4 witness state: an in-progress charge row pending when the final line is
reached. -/
def stC4 : LoopState :=
  ⟨rowC1, some [⟨0, 60, 10, 12, "Seq No"⟩, ⟨50, 80, 10, 12, "Statute"⟩], []⟩

/-- C4 witness final line: the lone docket-number token. -/
def wDnC4 : Word := ⟨0, 40, 30, 32, "CP-51-CR-1"⟩

/-! ## Dictionary lemmas -/

theorem dictLookup_mem {κ α : Type} [DecidableEq κ] {d : List (κ × α)} {k : κ} {v : α}
    (h : dictLookup d k = some v) : (k, v) ∈ d := by
  induction d with
  | nil => simp [dictLookup] at h
  | cons kv rest ih =>
    obtain ⟨k0, v0⟩ := kv
    simp only [dictLookup] at h
    by_cases hk : k0 = k
    · subst hk
      rw [if_pos rfl] at h
      obtain rfl : v0 = v := Option.some.inj h
      exact List.mem_cons_self _ _
    · rw [if_neg hk] at h
      exact List.mem_cons_of_mem _ (ih h)

theorem dictLookup_dictInsert {κ α : Type} [DecidableEq κ] (d : List (κ × α))
    (k k2 : κ) (v : α) :
    dictLookup (dictInsert d k v) k2 = if k = k2 then some v else dictLookup d k2 := by
  induction d with
  | nil => simp [dictInsert, dictLookup]
  | cons kv rest ih =>
    obtain ⟨k0, v0⟩ := kv
    by_cases hk : k0 = k
    · subst hk
      by_cases hk2 : k0 = k2
      · subst hk2
        simp [dictInsert, dictLookup]
      · simp [dictInsert, dictLookup, hk2]
    · by_cases hk2 : k0 = k2
      · subst hk2
        have hkk : ¬ k = k0 := fun hc => hk hc.symm
        simp [dictInsert, dictLookup, hk, hkk]
      · simp [dictInsert, dictLookup, hk, hk2, ih]

theorem mem_dictInsert {κ α : Type} [DecidableEq κ] {d : List (κ × α)}
    {k : κ} {v : α} {kv : κ × α} (h : kv ∈ dictInsert d k v) :
    kv.1 = k ∨ kv ∈ d := by
  induction d with
  | nil =>
    simp only [dictInsert, List.mem_singleton] at h
    rw [h]
    exact Or.inl rfl
  | cons kv0 rest ih =>
    obtain ⟨k0, v0⟩ := kv0
    by_cases hk : k0 = k
    · subst hk
      simp only [dictInsert, if_pos] at h
      rcases List.mem_cons.1 h with h1 | h1
      · rw [h1]; exact Or.inl rfl
      · exact Or.inr (List.mem_cons_of_mem _ h1)
    · simp only [dictInsert, if_neg hk] at h
      rcases List.mem_cons.1 h with h1 | h1
      · rw [h1]; exact Or.inr (List.mem_cons_self _ _)
      · rcases ih h1 with h2 | h2
        · exact Or.inl h2
        · exact Or.inr (List.mem_cons_of_mem _ h2)

theorem dictInsert_keys_nodup {κ α : Type} [DecidableEq κ] {d : List (κ × α)}
    (k : κ) (v : α) (h : (d.map Prod.fst).Nodup) :
    ((dictInsert d k v).map Prod.fst).Nodup := by
  induction d with
  | nil => simp [dictInsert]
  | cons kv0 rest ih =>
    obtain ⟨k0, v0⟩ := kv0
    simp only [List.map_cons, List.nodup_cons] at h
    by_cases hk : k0 = k
    · subst hk
      simpa [dictInsert, List.nodup_cons] using h
    · simp only [dictInsert, if_neg hk, List.map_cons, List.nodup_cons]
      refine ⟨?_, ih h.2⟩
      intro hc
      rcases List.mem_map.1 hc with ⟨kv2, hkv2, hfst⟩
      rcases mem_dictInsert hkv2 with h2 | h2
      · exact hk (hfst.symm.trans h2)
      · exact h.1 (List.mem_map.2 ⟨kv2, h2, hfst⟩)

theorem dictInsert_append {κ α : Type} [DecidableEq κ] {d : List (κ × α)}
    {k : κ} (v : α) (h : k ∉ d.map Prod.fst) :
    dictInsert d k v = d ++ [(k, v)] := by
  induction d with
  | nil => simp [dictInsert]
  | cons kv0 rest ih =>
    obtain ⟨k0, v0⟩ := kv0
    simp only [List.map_cons, List.mem_cons, not_or] at h
    simp only [dictInsert, if_neg (fun hc : k0 = k => h.1 hc.symm), List.cons_append,
      List.cons.injEq, true_and]
    exact ih h.2

/-! ## Key-normalisation lemmas (C9) -/

theorem pyToLower_idem (c : Char) : pyToLower (pyToLower c) = pyToLower c := by
  unfold pyToLower
  cases h : dictLookup lowerMap c with
  | none => simp [h]
  | some v =>
    have hv : (c, v) ∈ lowerMap := dictLookup_mem h
    have hall : ∀ p ∈ lowerMap, dictLookup lowerMap p.2 = none := by decide
    simp [hall (c, v) hv]

theorem pyToLower_ne_dot {c : Char} (hc : c ≠ '.') : pyToLower c ≠ '.' := by
  unfold pyToLower
  cases h : dictLookup lowerMap c with
  | none => simpa using hc
  | some v =>
    have hv : (c, v) ∈ lowerMap := dictLookup_mem h
    have hall : ∀ p ∈ lowerMap, p.2 ≠ '.' := by decide
    simpa using hall (c, v) hv

theorem removeSubFuel_dot_cons (fuel : Nat) (rest : List Char) :
    removeSubFuel ['.'] (fuel + 1) ('.' :: rest) = removeSubFuel ['.'] fuel rest := by
  simp [removeSubFuel, List.isPrefixOf]

theorem removeSubFuel_ne_cons (fuel : Nat) (c : Char) (rest : List Char)
    (hc : c ≠ '.') :
    removeSubFuel ['.'] (fuel + 1) (c :: rest) = c :: removeSubFuel ['.'] fuel rest := by
  have hbeq : (('.' : Char) == c) = false :=
    beq_eq_false_iff_ne.2 fun h => hc h.symm
  simp [removeSubFuel, List.isPrefixOf, hbeq]

theorem removeSubFuel_dot_not_mem :
    ∀ (fuel : Nat) (l : List Char), l.length ≤ fuel →
      ('.' : Char) ∉ removeSubFuel ['.'] fuel l := by
  intro fuel
  induction fuel with
  | zero =>
    intro l hl
    rw [List.length_eq_zero.1 (Nat.le_zero.1 hl)]
    simp [removeSubFuel]
  | succ fuel ih =>
    intro l hl
    match l with
    | [] => simp [removeSubFuel]
    | c :: rest =>
      simp only [List.length_cons, Nat.succ_le_succ_iff] at hl
      by_cases hc : c = '.'
      · subst hc
        rw [removeSubFuel_dot_cons]
        exact ih rest hl
      · rw [removeSubFuel_ne_cons fuel c rest hc]
        simp only [List.mem_cons, not_or]
        exact ⟨fun h => hc h.symm, ih rest hl⟩

theorem removeSubFuel_of_dot_not_mem :
    ∀ (fuel : Nat) (l : List Char), l.length ≤ fuel → ('.' : Char) ∉ l →
      removeSubFuel ['.'] fuel l = l := by
  intro fuel
  induction fuel with
  | zero =>
    intro l hl _
    rw [List.length_eq_zero.1 (Nat.le_zero.1 hl)]
    simp [removeSubFuel]
  | succ fuel ih =>
    intro l hl hd
    match l with
    | [] => simp [removeSubFuel]
    | c :: rest =>
      simp only [List.length_cons, Nat.succ_le_succ_iff] at hl
      simp only [List.mem_cons, not_or] at hd
      rw [removeSubFuel_ne_cons fuel c rest (fun h => hd.1 h.symm)]
      rw [ih rest hl hd.2]

theorem pySplitAux_mem {l acc : List Char} (hacc : ∀ c ∈ acc, c.isWhitespace = false) :
    ∀ p ∈ pySplitAux acc l, ∀ c ∈ p, (c ∈ acc ∨ c ∈ l) ∧ c.isWhitespace = false := by
  induction l generalizing acc with
  | nil =>
    intro p hp c hc
    simp only [pySplitAux] at hp
    by_cases ha : acc.isEmpty
    · simp [ha] at hp
    · simp only [ha, Bool.false_eq_true, if_false, List.mem_singleton] at hp
      subst hp
      have := List.mem_reverse.1 hc
      exact ⟨Or.inl this, hacc c this⟩
  | cons c0 rest ih =>
    intro p hp c hc
    simp only [pySplitAux] at hp
    by_cases hws : c0.isWhitespace
    · rw [if_pos hws] at hp
      by_cases ha : acc.isEmpty
      · rw [if_pos ha] at hp
        have := @ih [] (by intro c hc; simp at hc) p hp c hc
        rcases this with ⟨h1, h2⟩
        rcases h1 with h1 | h1
        · simp at h1
        · exact ⟨Or.inr (List.mem_cons_of_mem _ h1), h2⟩
      · rw [if_neg ha] at hp
        rcases List.mem_cons.1 hp with hp | hp
        · subst hp
          have := List.mem_reverse.1 hc
          exact ⟨Or.inl this, hacc c this⟩
        · have := @ih [] (by intro c hc; simp at hc) p hp c hc
          rcases this with ⟨h1, h2⟩
          rcases h1 with h1 | h1
          · simp at h1
          · exact ⟨Or.inr (List.mem_cons_of_mem _ h1), h2⟩
    · rw [if_neg hws] at hp
      have hacc2 : ∀ c ∈ c0 :: acc, c.isWhitespace = false := by
        intro c hc
        rcases List.mem_cons.1 hc with hc | hc
        · subst hc; exact Bool.eq_false_iff.2 hws
        · exact hacc c hc
      have := @ih (c0 :: acc) hacc2 p hp c hc
      rcases this with ⟨h1, h2⟩
      rcases h1 with h1 | h1
      · rcases List.mem_cons.1 h1 with h1 | h1
        · subst h1; exact ⟨Or.inr (List.mem_cons_self _ _), h2⟩
        · exact ⟨Or.inl h1, h2⟩
      · exact ⟨Or.inr (List.mem_cons_of_mem _ h1), h2⟩

theorem isEmpty_false_of_ne_nil {α : Type} {l : List α} (h : l ≠ []) :
    l.isEmpty = false := by
  cases l with
  | nil => exact absurd rfl h
  | cons a as => rfl

theorem pySplitAux_of_no_ws {l : List Char} (hl : ∀ c ∈ l, c.isWhitespace = false) :
    ∀ acc : List Char,
      pySplitAux acc l = if (acc.reverse ++ l).isEmpty then [] else [acc.reverse ++ l] := by
  induction l with
  | nil =>
    intro acc
    simp only [pySplitAux, List.append_nil]
    by_cases ha : acc = []
    · subst ha; simp
    · have h1 : acc.isEmpty = false := isEmpty_false_of_ne_nil ha
      have h2 : acc.reverse.isEmpty = false :=
        isEmpty_false_of_ne_nil (by simpa using ha)
      rw [h1, h2]
  | cons c0 rest ih =>
    intro acc
    have hc0 : c0.isWhitespace = false := hl c0 (List.mem_cons_self _ _)
    simp only [pySplitAux, hc0, Bool.false_eq_true, if_false]
    rw [ih (fun c hc => hl c (List.mem_cons_of_mem _ hc)) (c0 :: acc)]
    have hre : (c0 :: acc).reverse ++ rest = acc.reverse ++ c0 :: rest := by
      simp
    rw [hre]

theorem mem_joinUnderscore {ps : List (List Char)} {c : Char}
    (h : c ∈ joinUnderscore ps) : c = '_' ∨ ∃ p ∈ ps, c ∈ p := by
  induction ps with
  | nil => simp [joinUnderscore] at h
  | cons p rest ih =>
    match rest with
    | [] =>
      simp only [joinUnderscore] at h
      exact Or.inr ⟨p, List.mem_cons_self _ _, h⟩
    | q :: rest2 =>
      simp only [joinUnderscore, List.mem_append, List.mem_cons] at h
      rcases h with h | h | h
      · exact Or.inr ⟨p, List.mem_cons_self _ _, h⟩
      · exact Or.inl h
      · rcases ih h with h2 | ⟨p2, hp2, hc2⟩
        · exact Or.inl h2
        · exact Or.inr ⟨p2, List.mem_cons_of_mem _ hp2, hc2⟩

theorem map_self_of_fixed {α : Type} {l : List α} {f : α → α}
    (h : ∀ x ∈ l, f x = x) : l.map f = l := by
  induction l with
  | nil => rfl
  | cons x rest ih =>
    simp only [List.map_cons, List.cons.injEq]
    exact ⟨h x (List.mem_cons_self _ _), ih fun y hy => h y (List.mem_cons_of_mem _ hy)⟩

theorem snakeKey_idem (k : String) :
    snakeKey [['.']] (snakeKey [['.']] k) = snakeKey [['.']] k := by
  unfold snakeKey
  have hfold : ∀ key : List Char,
      formatKeyChars [['.']] key = (removeSub ['.'] key).map pyToLower := by
    intro key; rfl
  rw [hfold, hfold]
  set r : List Char := removeSub ['.'] k.data with hr
  set m : List Char := r.map pyToLower with hm
  set j : List Char := joinUnderscore (pySplit m) with hj
  have hdata : (String.mk j).data = j := rfl
  rw [hdata]
  refine congrArg String.mk ?_
  -- characters of j: underscores, or non-whitespace characters of m
  have hmem : ∀ c ∈ j, c = '_' ∨ (c ∈ m ∧ c.isWhitespace = false) := by
    intro c hc
    rcases mem_joinUnderscore hc with h | ⟨p, hp, hcp⟩
    · exact Or.inl h
    · have h2 := @pySplitAux_mem m [] (by intro c hc; simp at hc) p hp c hcp
      rcases h2.1 with h | h
      · simp at h
      · exact Or.inr ⟨h, h2.2⟩
  have hdotr : ('.' : Char) ∉ r := by
    rw [hr]
    exact removeSubFuel_dot_not_mem _ _ le_rfl
  have hdotj : ('.' : Char) ∉ j := by
    intro hc
    rcases hmem _ hc with h | h
    · exact absurd h.symm (by decide)
    · rcases List.mem_map.1 (hm ▸ h.1) with ⟨c0, hc0, hlc⟩
      exact pyToLower_ne_dot (fun h0 => hdotr (h0 ▸ hc0)) hlc
  have hrem : removeSub ['.'] j = j :=
    removeSubFuel_of_dot_not_mem _ _ le_rfl hdotj
  rw [hrem]
  have hfix : j.map pyToLower = j := by
    apply map_self_of_fixed
    intro c hc
    rcases hmem c hc with h | h
    · subst h; decide
    · rcases List.mem_map.1 (hm ▸ h.1) with ⟨c0, _, hlc⟩
      rw [← hlc]
      exact pyToLower_idem c0
  rw [hfix]
  have hws : ∀ c ∈ j, c.isWhitespace = false := by
    intro c hc
    rcases hmem c hc with h | h
    · subst h; decide
    · exact h.2
  show joinUnderscore (pySplitAux [] j) = j
  rw [pySplitAux_of_no_ws hws []]
  simp only [List.reverse_nil, List.nil_append]
  by_cases hj0 : j = []
  · rw [hj0]
    rfl
  · rw [isEmpty_false_of_ne_nil hj0]
    rfl

theorem tsc_keys_image {α : Type} (rep : List (List Char)) :
    ∀ (d acc : List (String × α)),
      (∀ kv ∈ acc, ∃ k0, kv.1 = snakeKey rep k0) →
      ∀ kv ∈ d.foldl (fun acc kv => dictInsert acc (snakeKey rep kv.1) kv.2) acc,
        ∃ k0, kv.1 = snakeKey rep k0 := by
  intro d
  induction d with
  | nil =>
    intro acc hacc kv hkv
    exact hacc kv hkv
  | cons kv0 rest ih =>
    intro acc hacc kv hkv
    simp only [List.foldl_cons] at hkv
    refine ih _ ?_ kv hkv
    intro kv2 hkv2
    rcases mem_dictInsert hkv2 with h | h
    · exact ⟨kv0.1, h⟩
    · exact hacc kv2 h

theorem tsc_keys_nodup {α : Type} (rep : List (List Char)) :
    ∀ (d acc : List (String × α)), (acc.map Prod.fst).Nodup →
      ((d.foldl (fun acc kv => dictInsert acc (snakeKey rep kv.1) kv.2) acc).map
        Prod.fst).Nodup := by
  intro d
  induction d with
  | nil =>
    intro acc h
    exact h
  | cons kv0 rest ih =>
    intro acc h
    simp only [List.foldl_cons]
    exact ih _ (dictInsert_keys_nodup _ _ h)

theorem tsc_fixed_id {α : Type} (rep : List (List Char)) :
    ∀ (d acc : List (String × α)),
      ((acc ++ d).map Prod.fst).Nodup →
      (∀ kv ∈ d, snakeKey rep kv.1 = kv.1) →
      d.foldl (fun acc kv => dictInsert acc (snakeKey rep kv.1) kv.2) acc = acc ++ d := by
  intro d
  induction d with
  | nil =>
    intro acc _ _
    simp
  | cons kv0 rest ih =>
    intro acc hnd hfix
    simp only [List.foldl_cons]
    have hk0 : snakeKey rep kv0.1 = kv0.1 := hfix kv0 (List.mem_cons_self _ _)
    rw [hk0]
    have hnd2 := hnd
    rw [List.map_append] at hnd2
    rcases List.nodup_append.1 hnd2 with ⟨_, _, hdisj⟩
    have hnotin : kv0.1 ∉ acc.map Prod.fst := fun hc => hdisj hc (by simp)
    rw [dictInsert_append kv0.2 hnotin]
    have hassoc : acc ++ [kv0] ++ rest = acc ++ kv0 :: rest := by simp
    rw [ih (acc ++ [(kv0.1, kv0.2)]) (by simpa using hnd)
      (fun kv h => hfix kv (List.mem_cons_of_mem _ h))]
    simp

/-- C9: key normalization is idempotent: for every dictionary with string
keys, `to_snake_case (to_snake_case d) = to_snake_case d` — normalising an
already-normalised key set (strip `"."`, lowercase, join whitespace runs with
single underscores) returns the same dictionary, with all values unchanged. -/
theorem claims_C9 {α : Type} (d : List (String × α)) :
    to_snake_case (to_snake_case d) = to_snake_case d := by
  have himg : ∀ kv ∈ to_snake_case d, ∃ k0, kv.1 = snakeKey [['.']] k0 := by
    have := @tsc_keys_image α [['.']] d []
      (by intro kv h; exact absurd h (List.not_mem_nil kv))
    simpa [to_snake_case] using this
  have hnd : ((to_snake_case d).map Prod.fst).Nodup := by
    have := @tsc_keys_nodup α [['.']] d [] (by simp)
    simpa [to_snake_case] using this
  have hfix : ∀ kv ∈ to_snake_case d, snakeKey [['.']] kv.1 = kv.1 := by
    intro kv hkv
    rcases himg kv hkv with ⟨k0, hk0⟩
    rw [hk0, snakeKey_idem]
  have hid := tsc_fixed_id [['.']] (to_snake_case d) [] (by simpa using hnd) hfix
  simpa [to_snake_case] using hid

/-! ## Line-grouping lemmas (C3) -/

theorem pyInsertSorted_perm {α : Type} (le : α → α → Bool) (x : α) (l : List α) :
    (pyInsertSorted le x l).Perm (x :: l) := by
  induction l with
  | nil => simp [pyInsertSorted]
  | cons y ys ih =>
    simp only [pyInsertSorted]
    by_cases hxy : le x y
    · rw [if_pos hxy]
    · rw [if_neg hxy]
      exact (ih.cons y).trans (List.Perm.swap x y ys)

theorem pySorted_perm {α : Type} (le : α → α → Bool) (l : List α) :
    (pySorted le l).Perm l := by
  induction l with
  | nil => simp [pySorted]
  | cons x xs ih =>
    exact (pyInsertSorted_perm le x (pySorted le xs)).trans (ih.cons x)

theorem mem_pySorted {α : Type} (le : α → α → Bool) (l : List α) (a : α) :
    a ∈ pySorted le l ↔ a ∈ l :=
  (pySorted_perm le l).mem_iff

theorem mem_treeQuery {words : List Word} {tolerance q : Int} {w : Word}
    (h : w ∈ treeQuery words tolerance q) :
    w.y - tolerance ≤ q ∧ q < w.y + tolerance := by
  have h2 := (List.mem_filter.1 h).2
  exact of_decide_eq_true h2

theorem group_into_lines_line_eq {words : List Word} {tolerance : Int}
    {q : Int} {line : List Word}
    (h : (q, line) ∈ group_into_lines words tolerance) :
    line = sortByX (treeQuery words tolerance q) := by
  suffices H : ∀ (keys : List Int) (acc : List (Int × List Word)),
      (∀ p ∈ acc, p.2 = sortByX (treeQuery words tolerance p.1)) →
      ∀ p ∈ keys.foldl (group_into_linesStep words tolerance) acc,
        p.2 = sortByX (treeQuery words tolerance p.1) by
    exact H _ [] (by intro p hp; exact absurd hp (List.not_mem_nil p)) (q, line) h
  intro keys
  induction keys with
  | nil =>
    intro acc hacc p hp
    exact hacc p hp
  | cons k0 rest ih =>
    intro acc hacc p hp
    simp only [List.foldl_cons] at hp
    refine ih _ ?_ p hp
    intro p2 hp2
    simp only [group_into_linesStep] at hp2
    by_cases hmem : sortByX (treeQuery words tolerance k0) ∈ acc.map Prod.snd
    · rw [if_pos hmem] at hp2
      exact hacc p2 hp2
    · rw [if_neg hmem] at hp2
      rcases List.mem_append.1 hp2 with hmem2 | hmem2
      · exact hacc p2 hmem2
      · have : p2 = (k0, sortByX (treeQuery words tolerance k0)) := by
          simpa using hmem2
        rw [this]

/-- C3 counterexample: with tolerance 10, the line recorded at key 0 of
`wordsC3` contains both the word with `y = 10` and the word with `y = -9`,
whose vertical difference 19 exceeds the tolerance — refuting the claimed
`|y1 - y2| <= tolerance` invariant. -/
theorem claims_C3_counterexample :
    ((0 : Int),
      [(⟨0, 5, 0, 2, "a"⟩ : Word), ⟨1, 6, 10, 12, "b"⟩, ⟨2, 7, -9, -7, "c"⟩]) ∈
        group_into_lines wordsC3 10 ∧
    (⟨1, 6, 10, 12, "b"⟩ : Word) ∈
      [(⟨0, 5, 0, 2, "a"⟩ : Word), ⟨1, 6, 10, 12, "b"⟩, ⟨2, 7, -9, -7, "c"⟩] ∧
    (⟨2, 7, -9, -7, "c"⟩ : Word) ∈
      [(⟨0, 5, 0, 2, "a"⟩ : Word), ⟨1, 6, 10, 12, "b"⟩, ⟨2, 7, -9, -7, "c"⟩] ∧
    ¬ (|(⟨1, 6, 10, 12, "b"⟩ : Word).y - (⟨2, 7, -9, -7, "c"⟩ : Word).y| ≤ 10) := by
  refine ⟨by decide, by decide, by decide, by decide⟩

/-- C3 amended: two tokens assigned to the same line by `group_into_lines`
need not be within `tolerance` of each other; the invariant the code
guarantees is `|y1 - y2| < 2 * tolerance` (each token's `y` lies in the
half-open window `(q - tolerance, q + tolerance]` around the line key). -/
theorem claims_C3_amended (words : List Word) (tolerance q : Int)
    (line : List Word) (w1 w2 : Word)
    (hline : (q, line) ∈ group_into_lines words tolerance)
    (h1 : w1 ∈ line) (h2 : w2 ∈ line) :
    |w1.y - w2.y| < 2 * tolerance := by
  have hle := group_into_lines_line_eq hline
  rw [hle] at h1 h2
  have h1m : w1 ∈ treeQuery words tolerance q := (mem_pySorted _ _ _).1 h1
  have h2m : w2 ∈ treeQuery words tolerance q := (mem_pySorted _ _ _).1 h2
  have b1 := mem_treeQuery h1m
  have b2 := mem_treeQuery h2m
  rw [abs_sub_lt_iff]
  constructor <;> omega

/-- C3 amended, witness at a concrete input. -/
theorem claims_C3_amended_witness :
    (((0 : Int),
        [(⟨0, 5, 0, 2, "a"⟩ : Word), ⟨1, 6, 10, 12, "b"⟩, ⟨2, 7, -9, -7, "c"⟩]) ∈
          group_into_lines wordsC3 10) ∧
    |(⟨1, 6, 10, 12, "b"⟩ : Word).y - (⟨2, 7, -9, -7, "c"⟩ : Word).y| < 2 * 10 :=
  ⟨by decide,
   claims_C3_amended wordsC3 10 0
     [(⟨0, 5, 0, 2, "a"⟩ : Word), ⟨1, 6, 10, 12, "b"⟩, ⟨2, 7, -9, -7, "c"⟩]
     (⟨1, 6, 10, 12, "b"⟩ : Word)
     (⟨2, 7, -9, -7, "c"⟩ : Word) (by decide) (by decide) (by decide)⟩

/-! ## Column-mapping lemmas (C7, C10) -/

theorem find_nearestAux_lt (value : Int) :
    ∀ (rest : List Int) (i best : Nat) (bd : Int), best < i →
      find_nearestAux value rest i best bd < i + rest.length := by
  intro rest
  induction rest with
  | nil =>
    intro i best bd h
    simpa [find_nearestAux] using h
  | cons x xs ih =>
    intro i best bd h
    simp only [find_nearestAux, List.length_cons]
    by_cases hlt : |x - value| < bd
    · rw [if_pos hlt]
      have := ih (i + 1) i |x - value| (Nat.lt_succ_self i)
      omega
    · rw [if_neg hlt]
      have := ih (i + 1) best bd (Nat.lt_succ_of_lt h)
      omega

theorem find_word_headersStep_eq (header : List Word) (out : List (String × String))
    (w : Word) :
    find_word_headersStep header out w =
      (colTextOf header w).map fun col => dictInsert out col w.text := by
  unfold find_word_headersStep colTextOf
  cases h1 : find_nearest (header.map Word.x) w.x with
  | none => rfl
  | some i =>
    show (match (header.map Word.text).get? i with
          | none => none
          | some col => some (dictInsert out col w.text)) =
        Option.map (fun col => dictInsert out col w.text) ((header.map Word.text).get? i)
    cases h2 : (header.map Word.text).get? i with
    | none => rfl
    | some col => rfl

theorem colTextOf_mem {header : List Word} {w : Word} {c : String}
    (h : colTextOf header w = some c) : c ∈ header.map Word.text := by
  unfold colTextOf at h
  cases h1 : find_nearest (header.map Word.x) w.x with
  | none =>
    rw [h1] at h
    exact absurd h (by simp)
  | some i =>
    rw [h1] at h
    exact List.get?_mem h

theorem colTextOf_isSome {header : List Word} (hne : header ≠ []) (w : Word) :
    ∃ c, colTextOf header w = some c := by
  match header with
  | [] => exact absurd rfl hne
  | h0 :: rest =>
    have hidx : find_nearest ((h0 :: rest).map Word.x) w.x =
        some (find_nearestAux w.x (rest.map Word.x) 1 0 |Word.x h0 - w.x|) := rfl
    have hlt : find_nearestAux w.x (rest.map Word.x) 1 0 |Word.x h0 - w.x| <
        ((h0 :: rest).map Word.text).length := by
      have hb := find_nearestAux_lt w.x (rest.map Word.x) 1 0 |Word.x h0 - w.x| Nat.one_pos
      simp only [List.length_map] at hb
      simp only [List.length_map, List.length_cons]
      omega
    refine ⟨((h0 :: rest).map Word.text).get ⟨_, hlt⟩, ?_⟩
    unfold colTextOf
    rw [hidx]
    exact List.get?_eq_get hlt

theorem fwhFrom_cons (header : List Word) (out : List (String × String))
    (w : Word) (rest : List Word) :
    find_word_headersFrom header out (w :: rest) =
      match find_word_headersStep header out w with
      | none => none
      | some out2 => find_word_headersFrom header out2 rest := rfl

theorem fwhFrom_isSome {header : List Word} (hne : header ≠ []) :
    ∀ (line : List Word) (acc : List (String × String)),
      ∃ d, find_word_headersFrom header acc line = some d := by
  intro line
  induction line with
  | nil =>
    intro acc
    exact ⟨acc, rfl⟩
  | cons w rest ih =>
    intro acc
    rcases colTextOf_isSome hne w with ⟨c, hc⟩
    have hstep : find_word_headersStep header acc w = some (dictInsert acc c w.text) := by
      rw [find_word_headersStep_eq, hc]
      rfl
    rcases ih (dictInsert acc c w.text) with ⟨d, hd⟩
    refine ⟨d, ?_⟩
    rw [fwhFrom_cons, hstep]
    exact hd

theorem fwhFrom_lookup (header : List Word) :
    ∀ (line : List Word) (acc d : List (String × String)),
      find_word_headersFrom header acc line = some d →
      ∀ k, dictLookup d k =
        Option.or
          (((line.filter fun w => decide (colTextOf header w = some k)).getLast?).map
            Word.text)
          (dictLookup acc k) := by
  intro line
  induction line with
  | nil =>
    intro acc d h k
    obtain rfl : acc = d := Option.some.inj h
    simp
  | cons w rest ih =>
    intro acc d h k
    rw [fwhFrom_cons, find_word_headersStep_eq] at h
    cases hct : colTextOf header w with
    | none =>
      rw [hct] at h
      exact absurd h (by simp)
    | some col =>
      rw [hct] at h
      simp only [Option.map_some'] at h
      have hrec := ih (dictInsert acc col w.text) d h k
      rw [dictLookup_dictInsert] at hrec
      by_cases hcol : col = k
      · subst hcol
        rw [if_pos rfl] at hrec
        have hpw : decide (colTextOf header w = some col) = true := by simp [hct]
        rw [@List.filter_cons_of_pos _ (fun w2 => decide (colTextOf header w2 = some col)) w rest hpw]
        cases hrest : rest.filter fun w2 => decide (colTextOf header w2 = some col) with
        | nil =>
          rw [hrest] at hrec
          simpa using hrec
        | cons a as =>
          rw [hrest] at hrec
          rw [List.getLast?_cons_cons]
          have hs : ((a :: as).getLast?).isSome := List.getLast?_isSome.2 (by simp)
          obtain ⟨x, hx⟩ := Option.isSome_iff_exists.1 hs
          rw [hx] at hrec ⊢
          simpa using hrec
      · rw [if_neg hcol] at hrec
        have hpw : ¬ (decide (colTextOf header w = some k) = true) := by
          simp only [decide_eq_true_eq, hct]
          intro hc
          exact hcol (Option.some.inj hc)
        rw [@List.filter_cons_of_neg _ (fun w2 => decide (colTextOf header w2 = some k)) w rest hpw]
        exact hrec

theorem fwhFrom_keys (header : List Word) :
    ∀ (line : List Word) (acc d : List (String × String)),
      find_word_headersFrom header acc line = some d →
      ∀ kv ∈ d, kv.1 ∈ header.map Word.text ∨ kv ∈ acc := by
  intro line
  induction line with
  | nil =>
    intro acc d h kv hkv
    obtain rfl : acc = d := Option.some.inj h
    exact Or.inr hkv
  | cons w rest ih =>
    intro acc d h kv hkv
    rw [fwhFrom_cons, find_word_headersStep_eq] at h
    cases hct : colTextOf header w with
    | none =>
      rw [hct] at h
      exact absurd h (by simp)
    | some col =>
      rw [hct] at h
      simp only [Option.map_some'] at h
      rcases ih (dictInsert acc col w.text) d h kv hkv with h2 | h2
      · exact Or.inl h2
      · rcases mem_dictInsert h2 with h3 | h3
        · exact Or.inl (h3 ▸ colTextOf_mem hct)
        · exact Or.inr h3

theorem filter_colText_len_le_one {line header : List Word}
    (hnd : (line.map (colTextOf header)).Nodup) (k : String) :
    (line.filter fun w => decide (colTextOf header w = some k)).length ≤ 1 := by
  induction line with
  | nil => simp
  | cons w rest ih =>
    simp only [List.map_cons, List.nodup_cons] at hnd
    by_cases hw : colTextOf header w = some k
    · have hfil : (rest.filter fun w => decide (colTextOf header w = some k)) = [] := by
        rw [List.filter_eq_nil_iff]
        intro a ha hpa
        have hak : colTextOf header a = some k := of_decide_eq_true hpa
        exact hnd.1 (List.mem_map.2 ⟨a, ha, hak.trans hw.symm⟩)
      rw [@List.filter_cons_of_pos _ (fun w2 => decide (colTextOf header w2 = some k)) w rest (by simp [hw]), hfil]
      simp
    · rw [@List.filter_cons_of_neg _ (fun w2 => decide (colTextOf header w2 = some k)) w rest (by simp [hw])]
      exact ih hnd.2

/-- C10: in `find_word_headers`, every key of the returned mapping is the text
of some header token, and the value stored for a key is the text of the *last*
token of the line whose nearest column is that key — later assignments
overwrite earlier ones, so each column holds at most one token's text and
texts are never concatenated. -/
theorem claims_C10 (line header : List Word) (d : List (String × String))
    (h : find_word_headers line header = some d) :
    (∀ kv ∈ d, kv.1 ∈ header.map Word.text) ∧
    (∀ k, dictLookup d k =
      ((line.filter fun w => decide (colTextOf header w = some k)).getLast?).map
        Word.text) := by
  constructor
  · intro kv hkv
    rcases fwhFrom_keys header line [] d h kv hkv with h2 | h2
    · exact h2
    · exact absurd h2 (List.not_mem_nil kv)
  · intro k
    have hlk := fwhFrom_lookup header line [] d h k
    rw [hlk]
    show Option.or _ (dictLookup ([] : List (String × String)) k) = _
    rw [show dictLookup ([] : List (String × String)) k = none from rfl, Option.or_none]

/-- C10 witness: a concrete header and line; the two tokens nearest to the
second column collapse to the last one's text. -/
theorem claims_C10_witness :
    find_word_headers lineC10 headerC10 = some [("Col1", "a"), ("Col2", "c")] ∧
    ((∀ kv ∈ [("Col1", "a"), ("Col2", "c")], kv.1 ∈ headerC10.map Word.text) ∧
     (∀ k, dictLookup [("Col1", "a"), ("Col2", "c")] k =
       ((lineC10.filter fun w => decide (colTextOf headerC10 w = some k)).getLast?).map
         Word.text)) :=
  ⟨by decide, claims_C10 lineC10 headerC10 [("Col1", "a"), ("Col2", "c")] (by decide)⟩

/-- C7 counterexample: `find_word_headers` is not invariant under reordering
of the line's tokens: with a single header column, the two orders of the same
token set give mappings holding the last-processed token's text, which
differ. -/
theorem claims_C7_counterexample :
    find_word_headers lineC7 headerC7 = some [("Col", "b")] ∧
    find_word_headers lineC7rev headerC7 = some [("Col", "a")] ∧
    lineC7.Perm lineC7rev ∧
    dictLookup [("Col", "b")] "Col" ≠ dictLookup [("Col", "a")] "Col" :=
  ⟨by decide, by decide, by decide, by decide⟩

/-- C7 amended: on identical inputs `find_word_headers` is deterministic (it
is a pure function of its arguments), and reordering the line's tokens
preserves the mapping's key-to-value content *provided* no two tokens of the
line are nearest to the same header column; when two tokens share a column the
later token in input order wins, so reordering can change the stored value
(see the counterexample). -/
theorem claims_C7_amended (line line2 header : List Word)
    (hh : header ≠ []) (hl : line ≠ [])
    (hperm : line.Perm line2)
    (hnd : (line.map (colTextOf header)).Nodup) :
    ∃ d1 d2, find_word_headers line header = some d1 ∧
      find_word_headers line2 header = some d2 ∧
      ∀ k, dictLookup d1 k = dictLookup d2 k := by
  rcases fwhFrom_isSome hh line [] with ⟨d1, h1⟩
  rcases fwhFrom_isSome hh line2 [] with ⟨d2, h2⟩
  refine ⟨d1, d2, h1, h2, ?_⟩
  intro k
  have r1 := fwhFrom_lookup header line [] d1 h1 k
  have r2 := fwhFrom_lookup header line2 [] d2 h2 k
  have hpf : (line.filter fun w => decide (colTextOf header w = some k)).Perm
      (line2.filter fun w => decide (colTextOf header w = some k)) :=
    hperm.filter _
  have heq : (line.filter fun w => decide (colTextOf header w = some k)) =
      (line2.filter fun w => decide (colTextOf header w = some k)) := by
    have hlen1 := filter_colText_len_le_one hnd k
    cases hm : line.filter fun w => decide (colTextOf header w = some k) with
    | nil =>
      rw [hm] at hpf
      have h0 : (line2.filter fun w => decide (colTextOf header w = some k)).length = 0 :=
        hpf.length_eq.symm
      exact (List.length_eq_zero.1 h0).symm
    | cons a as =>
      cases as with
      | nil =>
        rw [hm] at hpf
        exact List.singleton_perm.1 hpf
      | cons b bs =>
        rw [hm] at hlen1
        simp at hlen1
  rw [r1, r2, heq]

/-- C7 amended, witness at a concrete input with two distinct columns. -/
theorem claims_C7_amended_witness :
    (headerC7w ≠ [] ∧ lineC7w ≠ [] ∧ lineC7w.Perm lineC7wRev ∧
      (lineC7w.map (colTextOf headerC7w)).Nodup) ∧
    (∃ d1 d2, find_word_headers lineC7w headerC7w = some d1 ∧
      find_word_headers lineC7wRev headerC7w = some d2 ∧
      ∀ k, dictLookup d1 k = dictLookup d2 k) :=
  ⟨⟨by decide, by decide, by decide, by decide⟩,
   claims_C7_amended lineC7w lineC7wRev headerC7w (by decide) (by decide)
     (by decide) (by decide)⟩

/-! ## Record-assembler lemmas (C1, C4) and section-order evaluation (C2) -/

/-- C1 counterexample: a continuation-line key (`"Statute"`) present neither
in the current charge row nor among its sentences is *silently discarded*: the
stitch step leaves the row unchanged and the whole parse returns `ok` (no
error), with the value `"B"` absent from the result. -/
theorem claims_C1_counterexample :
    dictLookup rowC1 "Statute" = none ∧
    dictLookup rowC1 "sentences" = some (RowVal.sentList []) ∧
    stitchKey rowC1 "Statute" "B" = Except.ok rowC1 ∧
    parse_charges_table "CP-51-CR-1" wordsC1 =
      Except.ok ⟨[("extra", HVal.strList [])],
        [[("seq_no", RowVal.s "1"), ("sentences", RowVal.sentList [])]]⟩ :=
  ⟨by decide, by decide, by decide, by decide⟩

/-- C1 amended: when a continuation key exists neither among the current
charge row's fields nor among its sentences, the stitch loop of
`parse_charges_table` silently discards the key's value: the row is returned
unchanged and no error is raised (the membership test `key in row["sentences"]`
compares a string against dictionaries and never succeeds; an error occurs
only when the row has no `"sentences"` entry at all). -/
theorem claims_C1_amended (row : List (String × RowVal)) (k v : String)
    (ss : List SentDict)
    (hk : dictLookup row k = none)
    (hs : dictLookup row "sentences" = some (RowVal.sentList ss)) :
    stitchKey row k v = Except.ok row := by
  unfold stitchKey
  rw [hk, hs]
  simp [strDictEq]

/-- C1 amended, witness at a concrete row. -/
theorem claims_C1_amended_witness :
    (dictLookup rowC1 "Statute" = none ∧
      dictLookup rowC1 "sentences" = some (RowVal.sentList [])) ∧
    stitchKey rowC1 "Statute" "B2" = Except.ok rowC1 :=
  ⟨⟨by decide, by decide⟩,
   claims_C1_amended rowC1 "Statute" "B2" [] (by decide) (by decide)⟩

/-- Rewriting lemma: one iteration of the charges loop. -/
theorem chargesLoop_cons (ctx : ChargeCtx) (st : LoopState) (w0 : Word)
    (ws : List Word) (rest : List (List Word)) :
    chargesLoop ctx st ((w0 :: ws) :: rest) =
      if decide ((w0 :: ws).map Word.text ∈ ctx.header_values) ||
          (w0.text == ctx.docket_number) then
        chargesLoop ctx st rest
      else
        match processLine ctx st (w0 :: ws) with
        | Except.error e => Except.error e
        | Except.ok st2 =>
          if rest.isEmpty then Except.ok (st2.charges ++ [st2.row])
          else chargesLoop ctx st2 rest := rfl

/-- C4 counterexample: with the final body line consisting of the
docket-number token (a line the loop skips), the in-progress charge is *not*
flushed: the same document without that trailing line yields the charge, with
it the charges list is empty. -/
theorem claims_C4_counterexample :
    parse_charges_table "CP-51-CR-1" (wordsC4.take 5) =
      Except.ok ⟨[("extra", HVal.strList [])],
        [[("seq_no", RowVal.s "1"), ("statute", RowVal.s "A"),
          ("sentences", RowVal.sentList [])]]⟩ ∧
    parse_charges_table "CP-51-CR-1" wordsC4 =
      Except.ok ⟨[("extra", HVal.strList [])], []⟩ :=
  ⟨by decide, by decide⟩

/-- C4 amended: after the final line of the body is processed the in-progress
charge row is appended to the output — but only when that final line is
actually processed; a final line that is a repeated header row or starts with
the docket-number token is skipped by `continue`, which also skips the flush,
so the pending charge is dropped. -/
theorem claims_C4_amended (ctx : ChargeCtx) (st : LoopState)
    (w0 : Word) (ws : List Word) (out : List (List (String × RowVal)))
    (h : chargesLoop ctx st [w0 :: ws] = Except.ok out) :
    (((w0 :: ws).map Word.text ∈ ctx.header_values ∨ w0.text = ctx.docket_number) →
      out = st.charges) ∧
    (¬ ((w0 :: ws).map Word.text ∈ ctx.header_values) → w0.text ≠ ctx.docket_number →
      ∃ st2, processLine ctx st (w0 :: ws) = Except.ok st2 ∧
        out = st2.charges ++ [st2.row]) := by
  rw [chargesLoop_cons] at h
  constructor
  · intro hskip
    have hcond : (decide ((w0 :: ws).map Word.text ∈ ctx.header_values) ||
        (w0.text == ctx.docket_number)) = true := by
      rcases hskip with h1 | h1
      · rw [decide_eq_true h1, Bool.true_or]
      · rw [beq_iff_eq.2 h1, Bool.or_true]
    rw [if_pos hcond] at h
    exact (Except.ok.inj h).symm
  · intro h1 h2
    have hcond : (decide ((w0 :: ws).map Word.text ∈ ctx.header_values) ||
        (w0.text == ctx.docket_number)) = false := by
      rw [Bool.or_eq_false_iff]
      exact ⟨decide_eq_false h1, beq_eq_false_iff_ne.2 h2⟩
    rw [if_neg (by rw [hcond]; exact Bool.false_ne_true)] at h
    cases hp : processLine ctx st (w0 :: ws) with
    | error e =>
      rw [hp] at h
      exact absurd h (by simp)
    | ok st2 =>
      rw [hp] at h
      have hout : Except.ok (st2.charges ++ [st2.row]) =
          (Except.ok out : Except String (List (List (String × RowVal)))) := h
      exact ⟨st2, rfl, (Except.ok.inj hout).symm⟩

/-- C4 amended, witness: the final-line iteration on the skipped
docket-number line, applied to the amended theorem. -/
theorem claims_C4_amended_witness :
    chargesLoop ctxC4 stC4 [[wDnC4]] = Except.ok [] ∧
    ((([wDnC4].map Word.text ∈ ctxC4.header_values ∨
        wDnC4.text = ctxC4.docket_number) →
      ([] : List (List (String × RowVal))) = stC4.charges) ∧
     (¬ ([wDnC4].map Word.text ∈ ctxC4.header_values) →
        wDnC4.text ≠ ctxC4.docket_number →
      ∃ st2, processLine ctxC4 stC4 [wDnC4] = Except.ok st2 ∧
        ([] : List (List (String × RowVal))) = st2.charges ++ [st2.row])) :=
  ⟨by decide, claims_C4_amended ctxC4 stC4 wDnC4 [] [] (by decide)⟩

/-- C2: evaluation of the section-ordering code at a document in which
`Adjudicated` (word index 0) precedes `Active` (word index 1).  The code's
`sorted(starts, key=itemgetter(1))` iterates the dict's *keys* (the title
strings) and sorts them by their second character, yielding
`[Active, Adjudicated]` — the opposite of document order — after which the
slicing gives `Active` the empty slice `words[1:0]` and hands the whole
document to `Adjudicated`. -/
theorem claims_C2 :
    sectionStarts wordsC2 = [("Active", 1), ("Adjudicated", 0)] ∧
    sections wordsC2 = ["Active", "Adjudicated"] ∧
    sectionSlices wordsC2 = [("Active", []), ("Adjudicated", wordsC2)] :=
  ⟨by decide, by decide, by decide⟩

/-! ## Segment-splitter lemmas (C5, C6) -/

theorem drop_succ_of_drop_cons {α : Type} {nums : List α} {j : Nat} {x : α}
    {rest : List α} (h : nums.drop j = x :: rest) : nums.drop (j + 1) = rest := by
  have h1 : nums.drop (j + 1) = (nums.drop j).drop 1 := by
    rw [List.drop_drop]
  rw [h1, h]
  rfl

theorem get?_of_drop_cons {α : Type} {nums : List α} {j : Nat} {x : α}
    {rest : List α} (h : nums.drop j = x :: rest) : nums.get? j = some x := by
  have h1 : (nums.drop j).get? 0 = nums.get? j := by
    rw [List.get?_drop, Nat.add_zero]
  rw [← h1, h]
  rfl

theorem nextDiffAux_ge (dn : String) :
    ∀ (l : List String) (j : Nat), j ≤ nextDiffAux dn l j := by
  intro l
  induction l with
  | nil =>
    intro j
    simp [nextDiffAux]
  | cons x rest ih =>
    intro j
    simp only [nextDiffAux]
    by_cases hx : x = dn
    · rw [if_pos hx]
      exact Nat.le_trans (Nat.le_succ j) (ih (j + 1))
    · rw [if_neg hx]

theorem nextDiffAux_run (dn : String) (nums : List String) :
    ∀ (l : List String) (j : Nat), nums.drop j = l →
      ∀ m, j ≤ m → m < nextDiffAux dn l j → nums.get? m = some dn := by
  intro l
  induction l with
  | nil =>
    intro j _ m hjm hm
    simp only [nextDiffAux] at hm
    omega
  | cons x rest ih =>
    intro j hdrop m hjm hm
    simp only [nextDiffAux] at hm
    by_cases hx : x = dn
    · rw [if_pos hx] at hm
      rcases Nat.eq_or_lt_of_le hjm with hjm2 | hjm2
      · subst hjm2
        rw [get?_of_drop_cons hdrop, hx]
      · exact ih (j + 1) (drop_succ_of_drop_cons hdrop) m hjm2 hm
    · rw [if_neg hx] at hm
      omega

theorem nextDiffAux_stop (dn : String) (nums : List String) :
    ∀ (l : List String) (j : Nat), nums.drop j = l →
      nums.get? (nextDiffAux dn l j) ≠ some dn := by
  intro l
  induction l with
  | nil =>
    intro j hdrop
    simp only [nextDiffAux]
    have hlen : nums.length ≤ j := List.drop_eq_nil_iff_le.1 hdrop
    rw [List.get?_eq_none.2 hlen]
    simp
  | cons x rest ih =>
    intro j hdrop
    simp only [nextDiffAux]
    by_cases hx : x = dn
    · rw [if_pos hx]
      exact ih (j + 1) (drop_succ_of_drop_cons hdrop)
    · rw [if_neg hx]
      rw [get?_of_drop_cons hdrop]
      intro hc
      exact hx (Option.some.inj hc)

theorem nextDiff_ge (nums : List String) (dn : String) (j : Nat) :
    j ≤ nextDiff nums dn j := nextDiffAux_ge dn (nums.drop j) j

theorem nextDiff_run (nums : List String) (dn : String) (j m : Nat)
    (hj : j ≤ m) (hm : m < nextDiff nums dn j) : nums.get? m = some dn :=
  nextDiffAux_run dn nums (nums.drop j) j rfl m hj hm

theorem findIdx_eq_of_first :
    ∀ (nums : List String) (k : Nat) (v : String),
      nums.get? k = some v → (∀ k2, k2 < k → nums.get? k2 ≠ some v) →
      nums.findIdx (fun x => x == v) = k := by
  intro nums
  induction nums with
  | nil =>
    intro k v hk _
    simp at hk
  | cons a rest ih =>
    intro k v hk hfirst
    match k with
    | 0 =>
      have ha : a = v := Option.some.inj hk
      rw [List.findIdx_cons]
      simp [ha]
    | k + 1 =>
      have ha : ¬ (a = v) := by
        intro hav
        exact hfirst 0 (Nat.succ_pos k) (by simp [hav])
      rw [List.findIdx_cons]
      have hbeq : (a == v) = false := beq_eq_false_iff_ne.2 ha
      rw [hbeq]
      have hrec := ih k v (by simpa using hk) (fun k2 hk2 hc => by
        exact hfirst (k2 + 1) (Nat.succ_lt_succ hk2) (by simpa using hc))
      simp only [cond_false, hrec]

theorem docketInfo_pairwise (ds : List Word) :
    (docketInfo ds).Pairwise fun p q => p.1 < q.1 := by
  unfold docketInfo
  refine List.pairwise_map.2 ?_
  refine List.Pairwise.filter _ ?_
  refine List.pairwise_map.1 ?_
  rw [List.enum_map_fst]
  exact List.pairwise_lt_range ds.length

theorem docketInfo_fst_mono {ds : List Word} {k1 k2 : Nat} {p1 p2 : Nat × String}
    (h1 : (docketInfo ds).get? k1 = some p1) (h2 : (docketInfo ds).get? k2 = some p2)
    (hle : k1 ≤ k2) : p1.1 ≤ p2.1 := by
  rcases Nat.lt_or_ge k1 k2 with hlt | hge
  · have hp := (List.pairwise_iff_get).1 (docketInfo_pairwise ds)
    rcases List.get?_eq_some.1 h1 with ⟨hb1, hg1⟩
    rcases List.get?_eq_some.1 h2 with ⟨hb2, hg2⟩
    have := hp ⟨k1, hb1⟩ ⟨k2, hb2⟩ hlt
    rw [hg1, hg2] at this
    exact Nat.le_of_lt this
  · obtain rfl : k1 = k2 := Nat.le_antisymm hle hge
    rw [h1] at h2
    obtain rfl : p1 = p2 := Option.some.inj h2
    exact Nat.le_refl _

/-- Rewriting lemma: one iteration of the yielding loop. -/
theorem yieldLoopAux_cons (ds : List Word) (pairs : List (Nat × String)) (i : Nat)
    (restIdx : List Nat) (returned : List String) :
    yieldLoopAux ds pairs (i :: restIdx) returned =
      match pairs.get? i with
      | none => Except.error "IndexError: docket_numbers[i]"
      | some (start, this_docket_num) =>
        if this_docket_num ∈ returned then yieldLoopAux ds pairs restIdx returned
        else
          match countyOf this_docket_num with
          | Except.error e => Except.error e
          | Except.ok county =>
            match yieldLoopAux ds pairs restIdx (returned ++ [this_docket_num]) with
            | Except.error e => Except.error e
            | Except.ok rest =>
              Except.ok ((this_docket_num, county,
                pySlice ds start
                  ((pairs.get?
                    (nextDiff (pairs.map Prod.snd) this_docket_num (i + 1))).map
                      Prod.fst)) :: rest) := rfl

/-- Rewriting lemma: one iteration of the yielding loop, with the occurrence
pair known. -/
theorem yieldLoopAux_cons_some (ds : List Word) (pairs : List (Nat × String))
    (i : Nat) (restIdx : List Nat) (returned : List String) (a : Nat) (dn : String)
    (hget : pairs.get? i = some (a, dn)) :
    yieldLoopAux ds pairs (i :: restIdx) returned =
      if dn ∈ returned then yieldLoopAux ds pairs restIdx returned
      else
        match countyOf dn with
        | Except.error e => Except.error e
        | Except.ok county =>
          match yieldLoopAux ds pairs restIdx (returned ++ [dn]) with
          | Except.error e => Except.error e
          | Except.ok rest =>
            Except.ok ((dn, county,
              pySlice ds a
                ((pairs.get?
                  (nextDiff (pairs.map Prod.snd) dn (i + 1))).map Prod.fst)) :: rest) := by
  rw [yieldLoopAux_cons, hget]

theorem yieldLoopAux_spec (ds : List Word) (pairs : List (Nat × String)) :
    ∀ (m i : Nat) (returned : List String) (gs : List (String × String × List Word)),
      i + m = pairs.length →
      yieldLoopAux ds pairs (List.range' i m) returned = Except.ok gs →
      (∀ k2 v, k2 < i → (pairs.map Prod.snd).get? k2 = some v → v ∈ returned) →
      (∀ v ∈ returned, ∃ k2, k2 < i ∧ (pairs.map Prod.snd).get? k2 = some v) →
      (∀ g ∈ gs, g.1 ∉ returned) ∧
      (gs.map fun g => g.1).Nodup ∧
      (∀ g ∈ gs, ∃ k a, i ≤ k ∧ pairs.get? k = some (a, g.1) ∧
        (∀ k2, k2 < k → (pairs.map Prod.snd).get? k2 ≠ some g.1) ∧
        countyOf g.1 = Except.ok g.2.1 ∧
        g.2.2 = pySlice ds a
          ((pairs.get?
            (nextDiff (pairs.map Prod.snd) g.1 (k + 1))).map Prod.fst)) := by
  intro m
  induction m with
  | zero =>
    intro i returned gs _ h _ _
    obtain rfl : ([] : List (String × String × List Word)) = gs := Except.ok.inj h
    exact ⟨by simp, by simp, by simp⟩
  | succ m ih =>
    intro i returned gs hlen h hpre hret
    rw [show List.range' i (m + 1) = i :: List.range' (i + 1) m from rfl] at h
    have hi : i < pairs.length := by omega
    cases hget : pairs.get? i with
    | none =>
      rw [List.get?_eq_none] at hget
      omega
    | some p =>
      obtain ⟨a, dn⟩ := p
      rw [yieldLoopAux_cons_some ds pairs i _ returned a dn hget] at h
      have hnumsi : (pairs.map Prod.snd).get? i = some dn := by
        rw [List.get?_map, hget]
        rfl
      by_cases hdup : dn ∈ returned
      · rw [if_pos hdup] at h
        have hpre2 : ∀ k2 v, k2 < i + 1 →
            (pairs.map Prod.snd).get? k2 = some v → v ∈ returned := by
          intro k2 v hk2 hv
          rcases Nat.lt_or_ge k2 i with hk2i | hk2i
          · exact hpre k2 v hk2i hv
          · obtain rfl : k2 = i := by omega
            rw [hnumsi] at hv
            obtain rfl : dn = v := Option.some.inj hv
            exact hdup
        have hret2 : ∀ v ∈ returned, ∃ k2, k2 < i + 1 ∧
            (pairs.map Prod.snd).get? k2 = some v := by
          intro v hv
          rcases hret v hv with ⟨k2, hk2, hv2⟩
          exact ⟨k2, by omega, hv2⟩
        rcases ih (i + 1) returned gs (by omega) h hpre2 hret2 with ⟨c1, c2, c3⟩
        refine ⟨c1, c2, ?_⟩
        intro g hg
        rcases c3 g hg with ⟨k, a2, hk, rest⟩
        exact ⟨k, a2, by omega, rest⟩
      · rw [if_neg hdup] at h
        cases hcty : countyOf dn with
        | error e =>
          rw [hcty] at h
          exact absurd h (by simp)
        | ok county =>
          rw [hcty] at h
          cases hrec : yieldLoopAux ds pairs (List.range' (i + 1) m)
              (returned ++ [dn]) with
          | error e =>
            rw [hrec] at h
            exact absurd h (by simp)
          | ok gs2 =>
            rw [hrec] at h
            have hgs : (dn, county,
                pySlice ds a
                  ((pairs.get?
                    (nextDiff (pairs.map Prod.snd) dn (i + 1))).map Prod.fst)) :: gs2 =
                gs := Except.ok.inj h
            have hpre2 : ∀ k2 v, k2 < i + 1 →
                (pairs.map Prod.snd).get? k2 = some v → v ∈ returned ++ [dn] := by
              intro k2 v hk2 hv
              rcases Nat.lt_or_ge k2 i with hk2i | hk2i
              · exact List.mem_append_left _ (hpre k2 v hk2i hv)
              · obtain rfl : k2 = i := by omega
                rw [hnumsi] at hv
                obtain rfl : dn = v := Option.some.inj hv
                exact List.mem_append_right _ (List.mem_singleton.2 rfl)
            have hret2 : ∀ v ∈ returned ++ [dn], ∃ k2, k2 < i + 1 ∧
                (pairs.map Prod.snd).get? k2 = some v := by
              intro v hv
              rcases List.mem_append.1 hv with hv2 | hv2
              · rcases hret v hv2 with ⟨k2, hk2, hv3⟩
                exact ⟨k2, by omega, hv3⟩
              · obtain rfl : v = dn := List.mem_singleton.1 hv2
                exact ⟨i, by omega, hnumsi⟩
            rcases ih (i + 1) (returned ++ [dn]) gs2 (by omega) hrec hpre2 hret2 with
              ⟨c1, c2, c3⟩
            subst hgs
            refine ⟨?_, ?_, ?_⟩
            · intro g hg
              rcases List.mem_cons.1 hg with hg2 | hg2
              · rw [hg2]
                exact hdup
              · intro hc
                exact c1 g hg2 (List.mem_append_left _ hc)
            · rw [List.map_cons, List.nodup_cons]
              refine ⟨?_, c2⟩
              intro hc
              rcases List.mem_map.1 hc with ⟨g, hg, hgdn⟩
              exact c1 g hg (List.mem_append_right _ (List.mem_singleton.2 hgdn))
            · intro g hg
              rcases List.mem_cons.1 hg with hg2 | hg2
              · refine ⟨i, a, Nat.le_refl i, ?_, ?_, ?_, ?_⟩
                · rw [hg2, hget]
                · intro k2 hk2 hc
                  rw [hg2] at hc
                  exact hdup (hpre k2 dn hk2 hc)
                · rw [hg2]
                  exact hcty
                · rw [hg2]
              · rcases c3 g hg2 with ⟨k, a2, hk, rest⟩
                exact ⟨k, a2, by omega, rest⟩

/-- C5: `yield_dockets` yields at most one group per distinct docket-number
text: the yielded numbers are pairwise distinct; every group comes from the
*first* occurrence of its number and its slice extends from that occurrence
past all immediately consecutive repeats up to the next distinct docket number
or end of stream (`groupSliceOf`); and the token span of any later
re-occurrence (one at or past the end of the first consecutive run) is
disjoint from the span of every yielded slice — its tokens appear in no
yielded group. -/
theorem claims_C5 (dockets : List Word) (gs : List (String × String × List Word))
    (h : yield_dockets dockets = Except.ok gs) :
    (gs.map fun g => g.1).Nodup ∧
    (∀ g ∈ gs, ∃ k a, (yieldPairs dockets).get? k = some (a, g.1) ∧
      (∀ k2, k2 < k → ((yieldPairs dockets).map Prod.snd).get? k2 ≠ some g.1) ∧
      g.2.2 = groupSliceOf (delete_headers dockets) (yieldPairs dockets) g.1) ∧
    (∀ k a v, (yieldPairs dockets).get? k = some (a, v) →
      nextDiff ((yieldPairs dockets).map Prod.snd) v
        (((yieldPairs dockets).map Prod.snd).findIdx (fun x => x == v) + 1) ≤ k →
      ∀ g ∈ gs, ∃ a1, firstRunStart (yieldPairs dockets) g.1 = some a1 ∧
        spanDisjoint a1 (firstRunStop (yieldPairs dockets) g.1) a
          (((yieldPairs dockets).get? (k + 1)).map Prod.fst)) := by
  have hyp : yieldLoopAux (delete_headers dockets) (yieldPairs dockets)
      (List.range' 0 (yieldPairs dockets).length) [] = Except.ok gs := by
    rw [← List.range_eq_range']
    exact h
  obtain ⟨_, h2, h3⟩ := yieldLoopAux_spec (delete_headers dockets)
    (yieldPairs dockets) (yieldPairs dockets).length 0 [] gs (by omega) hyp
    (fun k2 v hk2 _ => absurd hk2 (Nat.not_lt_zero k2))
    (fun v hv => absurd hv (List.not_mem_nil v))
  refine ⟨h2, ?_, ?_⟩
  · intro g hg
    rcases h3 g hg with ⟨k, a, _, hget, hfirst, _, hslice⟩
    refine ⟨k, a, hget, hfirst, ?_⟩
    have hnums : ((yieldPairs dockets).map Prod.snd).get? k = some g.1 := by
      rw [List.get?_map, hget]
      rfl
    have hfidx : ((yieldPairs dockets).map Prod.snd).findIdx (fun x => x == g.1) = k :=
      findIdx_eq_of_first _ k g.1 hnums hfirst
    unfold groupSliceOf firstRunStart firstRunStop
    rw [hfidx, hget]
    exact hslice
  · intro k a v hkv hlater g hg
    rcases h3 g hg with ⟨kg, ag, _, hgetg, hfirstg, _, _⟩
    have hnumsg : ((yieldPairs dockets).map Prod.snd).get? kg = some g.1 := by
      rw [List.get?_map, hgetg]
      rfl
    have hfidxg : ((yieldPairs dockets).map Prod.snd).findIdx (fun x => x == g.1) = kg :=
      findIdx_eq_of_first _ kg g.1 hnumsg hfirstg
    have hstart : firstRunStart (yieldPairs dockets) g.1 = some ag := by
      unfold firstRunStart
      rw [hfidxg, hgetg]
      rfl
    refine ⟨ag, hstart, ?_⟩
    rcases List.get?_eq_some.1 hkv with ⟨hkb, _⟩
    rcases List.get?_eq_some.1 hgetg with ⟨hkgb, _⟩
    have hnumsk : ((yieldPairs dockets).map Prod.snd).get? k = some v := by
      rw [List.get?_map, hkv]
      rfl
    have hdich : k + 1 ≤ kg ∨
        nextDiff ((yieldPairs dockets).map Prod.snd) g.1 (kg + 1) ≤ k := by
      by_cases hvg : v = g.1
      · subst hvg
        right
        rw [hfidxg] at hlater
        exact hlater
      · by_contra hc
        push_neg at hc
        obtain ⟨hc1, hc2⟩ := hc
        rcases Nat.eq_or_lt_of_le (Nat.lt_succ_iff.1 hc1) with heq | hlt
        · rw [heq] at hnumsg
          rw [hnumsk] at hnumsg
          exact hvg (Option.some.inj hnumsg)
        · have hrun := nextDiff_run ((yieldPairs dockets).map Prod.snd) g.1
            (kg + 1) k hlt hc2
          rw [hnumsk] at hrun
          exact hvg (Option.some.inj hrun)
    rcases hdich with hcase | hcase
    · have hb : k + 1 < (yieldPairs dockets).length := Nat.lt_of_le_of_lt hcase hkgb
      have hget1 : (yieldPairs dockets).get? (k + 1) =
          some ((yieldPairs dockets).get ⟨k + 1, hb⟩) := List.get?_eq_get hb
      have hmono : ((yieldPairs dockets).get ⟨k + 1, hb⟩).1 ≤ ag :=
        @docketInfo_fst_mono (delete_headers dockets) (k + 1) kg
          ((yieldPairs dockets).get ⟨k + 1, hb⟩) (ag, g.1) hget1 hgetg hcase
      intro p hp1 hp2
      obtain ⟨hp1a, _⟩ := hp1
      obtain ⟨_, hp2b⟩ := hp2
      have hlt2 := hp2b ((yieldPairs dockets).get ⟨k + 1, hb⟩).1 (by rw [hget1]; rfl)
      omega
    · have hb : nextDiff ((yieldPairs dockets).map Prod.snd) g.1 (kg + 1) <
          (yieldPairs dockets).length := Nat.lt_of_le_of_lt hcase hkb
      have hget2 : (yieldPairs dockets).get?
          (nextDiff ((yieldPairs dockets).map Prod.snd) g.1 (kg + 1)) =
          some ((yieldPairs dockets).get
            ⟨nextDiff ((yieldPairs dockets).map Prod.snd) g.1 (kg + 1), hb⟩) :=
        List.get?_eq_get hb
      have hstop : firstRunStop (yieldPairs dockets) g.1 =
          some ((yieldPairs dockets).get
            ⟨nextDiff ((yieldPairs dockets).map Prod.snd) g.1 (kg + 1), hb⟩).1 := by
        unfold firstRunStop
        rw [hfidxg, hget2]
        rfl
      have hmono : ((yieldPairs dockets).get
          ⟨nextDiff ((yieldPairs dockets).map Prod.snd) g.1 (kg + 1), hb⟩).1 ≤ a :=
        @docketInfo_fst_mono (delete_headers dockets)
          (nextDiff ((yieldPairs dockets).map Prod.snd) g.1 (kg + 1)) k
          ((yieldPairs dockets).get
            ⟨nextDiff ((yieldPairs dockets).map Prod.snd) g.1 (kg + 1), hb⟩)
          (a, v) hget2 hkv hcase
      intro p hp1 hp2
      obtain ⟨_, hp1b⟩ := hp1
      obtain ⟨hp2a, _⟩ := hp2
      have hlt2 := hp1b _ hstop
      omega

/-- C5 witness: a stream with an interleaved duplicate docket number. -/
theorem claims_C5_witness :
    yield_dockets wordsC5 = Except.ok gsC5 ∧
    ((gsC5.map fun g => g.1).Nodup ∧
     (∀ g ∈ gsC5, ∃ k a, (yieldPairs wordsC5).get? k = some (a, g.1) ∧
       (∀ k2, k2 < k → ((yieldPairs wordsC5).map Prod.snd).get? k2 ≠ some g.1) ∧
       g.2.2 = groupSliceOf (delete_headers wordsC5) (yieldPairs wordsC5) g.1) ∧
     (∀ k a v, (yieldPairs wordsC5).get? k = some (a, v) →
       nextDiff ((yieldPairs wordsC5).map Prod.snd) v
         (((yieldPairs wordsC5).map Prod.snd).findIdx (fun x => x == v) + 1) ≤ k →
       ∀ g ∈ gsC5, ∃ a1, firstRunStart (yieldPairs wordsC5) g.1 = some a1 ∧
         spanDisjoint a1 (firstRunStop (yieldPairs wordsC5) g.1) a
           (((yieldPairs wordsC5).get? (k + 1)).map Prod.fst))) :=
  ⟨by decide, claims_C5 wordsC5 gsC5 (by decide)⟩

/-- C6: for every docket yielded by `yield_dockets`, the county is exactly
`countyOf` of the docket number — the second hyphen-delimited segment parsed
as an integer and looked up in the fixed `COUNTY_CODES` table; the table has
67 entries, code 51 maps to `"Philadelphia"`, and a code absent from the
table makes the generator raise (`KeyError`) instead of yielding. -/
theorem claims_C6 (dockets : List Word) (gs : List (String × String × List Word))
    (h : yield_dockets dockets = Except.ok gs) :
    (∀ g ∈ gs, countyOf g.1 = Except.ok g.2.1) ∧
    COUNTY_CODES.length = 67 ∧
    dictLookup COUNTY_CODES "51" = some "Philadelphia" ∧
    countyOf "MC-51-CR-0000001-2021" = Except.ok "Philadelphia" ∧
    yield_dockets wordsC6bad = Except.error "KeyError: county code" := by
  refine ⟨?_, by decide, by decide, by decide, by decide⟩
  have hyp : yieldLoopAux (delete_headers dockets) (yieldPairs dockets)
      (List.range' 0 (yieldPairs dockets).length) [] = Except.ok gs := by
    rw [← List.range_eq_range']
    exact h
  obtain ⟨_, _, h3⟩ := yieldLoopAux_spec (delete_headers dockets)
    (yieldPairs dockets) (yieldPairs dockets).length 0 [] gs (by omega) hyp
    (fun k2 v hk2 _ => absurd hk2 (Nat.not_lt_zero k2))
    (fun v hv => absurd hv (List.not_mem_nil v))
  intro g hg
  rcases h3 g hg with ⟨_, _, _, _, _, hcty, _⟩
  exact hcty

/-- C6 witness. -/
theorem claims_C6_witness :
    yield_dockets wordsC5 = Except.ok gsC5 ∧
    ((∀ g ∈ gsC5, countyOf g.1 = Except.ok g.2.1) ∧
     COUNTY_CODES.length = 67 ∧
     dictLookup COUNTY_CODES "51" = some "Philadelphia" ∧
     countyOf "MC-51-CR-0000001-2021" = Except.ok "Philadelphia" ∧
     yield_dockets wordsC6bad = Except.error "KeyError: county code") :=
  ⟨by decide, claims_C6 wordsC5 gsC5 (by decide)⟩

/-! ## C8: the serialize/deserialize round trip -/

theorem digitChar_isDigit (k : Nat) : (digitChar k).isDigit = true := by
  unfold digitChar
  split <;> decide

theorem digitChar_ne_slash (k : Nat) : digitChar k ≠ '/' := by
  unfold digitChar
  split <;> decide

theorem digitChar_toNat {k : Nat} (h : k < 10) : (digitChar k).toNat - 48 = k := by
  interval_cases k <;> decide

theorem natDigitsAux_succ (fuel n : Nat) :
    natDigitsAux (fuel + 1) n =
      if n < 10 then [digitChar n]
      else natDigitsAux fuel (n / 10) ++ [digitChar (n % 10)] := rfl

theorem digitsToNatAux_nil (acc : Nat) : digitsToNatAux [] acc = some acc := rfl

theorem digitsToNatAux_cons (c : Char) (rest : List Char) (acc : Nat) :
    digitsToNatAux (c :: rest) acc =
      if c.isDigit then digitsToNatAux rest (acc * 10 + (c.toNat - 48)) else none := rfl

theorem digitsToNatAux_append (l1 l2 : List Char) :
    ∀ acc : Nat, digitsToNatAux (l1 ++ l2) acc =
      match digitsToNatAux l1 acc with
      | none => none
      | some r => digitsToNatAux l2 r := by
  induction l1 with
  | nil => intro acc; rfl
  | cons c rest ih =>
    intro acc
    show digitsToNatAux (c :: (rest ++ l2)) acc = _
    rw [digitsToNatAux_cons, digitsToNatAux_cons]
    by_cases hc : c.isDigit = true
    · rw [if_pos hc, if_pos hc, ih]
    · rw [if_neg hc, if_neg hc]

/-- The decimal printer emits non-empty, slash-free digit strings that the
decimal parser maps back, positionally, onto the printed number. -/
theorem natDigitsAux_spec (fuel : Nat) : ∀ n : Nat, n < fuel →
    (natDigitsAux fuel n ≠ [] ∧ ∀ c ∈ natDigitsAux fuel n, c.isDigit = true ∧ c ≠ '/') ∧
    ∀ acc : Nat, digitsToNatAux (natDigitsAux fuel n) acc =
      some (acc * 10 ^ (natDigitsAux fuel n).length + n) := by
  induction fuel with
  | zero => intro n h; exact absurd h (Nat.not_lt_zero n)
  | succ fuel ih =>
    intro n h
    by_cases h10 : n < 10
    · have he : natDigitsAux (fuel + 1) n = [digitChar n] := by
        rw [natDigitsAux_succ, if_pos h10]
      refine ⟨⟨?_, ?_⟩, ?_⟩
      · rw [he]; exact List.cons_ne_nil _ _
      · intro c hc
        rw [he, List.mem_singleton] at hc
        subst hc
        exact ⟨digitChar_isDigit n, digitChar_ne_slash n⟩
      · intro acc
        rw [he, digitsToNatAux_cons, if_pos (digitChar_isDigit n), digitChar_toNat h10,
          digitsToNatAux_nil, List.length_singleton, pow_one]
    · have hdiv : n / 10 < fuel := by omega
      have hmod : n % 10 < 10 := Nat.mod_lt n (by norm_num)
      obtain ⟨⟨hne1, hdig1⟩, hval1⟩ := ih (n / 10) hdiv
      have he : natDigitsAux (fuel + 1) n =
          natDigitsAux fuel (n / 10) ++ [digitChar (n % 10)] := by
        rw [natDigitsAux_succ, if_neg h10]
      refine ⟨⟨?_, ?_⟩, ?_⟩
      · rw [he]
        intro hc
        exact hne1 (List.append_eq_nil.1 hc).1
      · intro c hc
        rw [he, List.mem_append] at hc
        rcases hc with hc | hc
        · exact hdig1 c hc
        · rw [List.mem_singleton] at hc
          subst hc
          exact ⟨digitChar_isDigit _, digitChar_ne_slash _⟩
      · intro acc
        rw [he, digitsToNatAux_append, hval1 acc]
        show digitsToNatAux [digitChar (n % 10)]
            (acc * 10 ^ (natDigitsAux fuel (n / 10)).length + n / 10) =
          some (acc * 10 ^ (natDigitsAux fuel (n / 10) ++ [digitChar (n % 10)]).length + n)
        rw [digitsToNatAux_cons, if_pos (digitChar_isDigit _), digitChar_toNat hmod,
          digitsToNatAux_nil, List.length_append, List.length_singleton, pow_succ,
          ← Nat.mul_assoc]
        congr 1
        generalize acc * 10 ^ (natDigitsAux fuel (n / 10)).length = A
        omega

/-- A number below `10 ^ k` prints in at most `k` digits. -/
theorem natDigitsAux_len (fuel : Nat) : ∀ n k : Nat, n < fuel → n < 10 ^ k → 1 ≤ k →
    (natDigitsAux fuel n).length ≤ k := by
  induction fuel with
  | zero => intro n k h _ _; exact absurd h (Nat.not_lt_zero n)
  | succ fuel ih =>
    intro n k h hk h1
    by_cases h10 : n < 10
    · rw [natDigitsAux_succ, if_pos h10, List.length_singleton]
      exact h1
    · have hdiv : n / 10 < fuel := by omega
      have hk2 : 2 ≤ k := by
        rcases Nat.lt_or_ge k 2 with hlt | hge
        · exfalso
          have hk1 : k = 1 := by omega
          subst hk1
          rw [pow_one] at hk
          omega
        · exact hge
      have hpow : 10 ^ k = 10 ^ (k - 1) * 10 := by
        rw [← pow_succ]
        congr 1
        omega
      have hdivk : n / 10 < 10 ^ (k - 1) := by
        rw [hpow] at hk
        set P := 10 ^ (k - 1) with hP
        omega
      have hlen := ih (n / 10) (k - 1) hdiv hdivk (by omega)
      rw [natDigitsAux_succ, if_neg h10, List.length_append, List.length_singleton]
      omega

theorem digitsToNat_cons (c : Char) (rest : List Char) :
    digitsToNat (c :: rest) = digitsToNatAux (c :: rest) 0 := rfl

theorem digitsToNat_eq_aux {l : List Char} (h : l ≠ []) :
    digitsToNat l = digitsToNatAux l 0 := by
  rcases l with _ | ⟨c, rest⟩
  · exact absurd rfl h
  · rfl

/-- `str(n)` is a non-empty slash-free digit string parsing back to `n`. -/
theorem natDigits_spec (n : Nat) :
    (natDigits n ≠ [] ∧ ∀ c ∈ natDigits n, c.isDigit = true ∧ c ≠ '/') ∧
    digitsToNat (natDigits n) = some n := by
  obtain ⟨⟨hne0, hdig0⟩, hval0⟩ := natDigitsAux_spec (n + 1) n (Nat.lt_succ_self n)
  have hne : natDigits n ≠ [] := hne0
  have hdig : ∀ c ∈ natDigits n, c.isDigit = true ∧ c ≠ '/' := hdig0
  have hval : ∀ acc : Nat, digitsToNatAux (natDigits n) acc =
      some (acc * 10 ^ (natDigits n).length + n) := hval0
  refine ⟨⟨hne, hdig⟩, ?_⟩
  rcases hl : natDigits n with _ | ⟨c, rest⟩
  · exact absurd hl hne
  · rw [digitsToNat_cons, ← hl, hval 0, Nat.zero_mul, Nat.zero_add]

theorem natDigits_len {n k : Nat} (hk : n < 10 ^ k) (h1 : 1 ≤ k) :
    (natDigits n).length ≤ k :=
  natDigitsAux_len (n + 1) n k (Nat.lt_succ_self n) hk h1

theorem pad2_ne_nil (n : Nat) : pad2 n ≠ [] := by
  unfold pad2
  split
  · exact List.cons_ne_nil _ _
  · exact (natDigits_spec n).1.1

/-- `strftime`-style two-digit padding: slash-free digits, parsing back to
`n`, in at most two characters (for `n ≤ 99`). -/
theorem pad2_spec {n : Nat} (h : n ≤ 99) :
    (∀ c ∈ pad2 n, c.isDigit = true ∧ c ≠ '/') ∧
    digitsToNat (pad2 n) = some n ∧ (pad2 n).length ≤ 2 := by
  obtain ⟨⟨hne, hdig⟩, hval⟩ := natDigits_spec n
  by_cases h10 : n < 10
  · have he : pad2 n = '0' :: natDigits n := by
      unfold pad2
      rw [if_pos h10]
    refine ⟨?_, ?_, ?_⟩
    · intro c hc
      rw [he, List.mem_cons] at hc
      rcases hc with rfl | hc
      · exact ⟨by decide, by decide⟩
      · exact hdig c hc
    · rw [he, digitsToNat_cons, digitsToNatAux_cons]
      have hd0 : ('0').isDigit = true := by decide
      rw [if_pos hd0]
      have h00 : 0 * 10 + (('0').toNat - 48) = 0 := by decide
      rw [h00, ← digitsToNat_eq_aux hne, hval]
    · rw [he, List.length_cons]
      have hlen : (natDigits n).length ≤ 1 := natDigits_len (by rw [pow_one]; exact h10) le_rfl
      omega
  · have he : pad2 n = natDigits n := by
      unfold pad2
      rw [if_neg h10]
    have h100 : n < 10 ^ 2 := by
      have h2 : (10 : Nat) ^ 2 = 100 := by norm_num
      omega
    refine ⟨?_, ?_, ?_⟩
    · intro c hc
      rw [he] at hc
      exact hdig c hc
    · rw [he, hval]
    · rw [he]
      exact natDigits_len h100 (by norm_num)

theorem splitOnChar_cons (sep c : Char) (rest : List Char) :
    splitOnChar sep (c :: rest) =
      if c == sep then [] :: splitOnChar sep rest
      else
        match splitOnChar sep rest with
        | [] => [[c]]
        | p :: ps => (c :: p) :: ps := rfl

/-- Splitting a separator-free string yields that one piece. -/
theorem splitOnChar_no_sep {sep : Char} : ∀ (a : List Char), sep ∉ a →
    splitOnChar sep a = [a] := by
  intro a
  induction a with
  | nil => intro _; rfl
  | cons c rest ih =>
    intro h
    have hc : (c == sep) = false :=
      beq_eq_false_iff_ne.2 fun hcc => h (hcc ▸ List.mem_cons_self c rest)
    rw [splitOnChar_cons, hc, if_neg Bool.false_ne_true,
      ih fun hm => h (List.mem_cons_of_mem c hm)]

/-- Splitting past a separator-free prefix peels it off as the first piece. -/
theorem splitOnChar_append_sep {sep : Char} : ∀ (a rest : List Char), sep ∉ a →
    splitOnChar sep (a ++ sep :: rest) = a :: splitOnChar sep rest := by
  intro a rest
  induction a with
  | nil =>
    intro _
    show splitOnChar sep (sep :: rest) = [] :: splitOnChar sep rest
    rw [splitOnChar_cons, beq_self_eq_true, if_pos rfl]
  | cons c a2 ih =>
    intro h
    have hc : (c == sep) = false :=
      beq_eq_false_iff_ne.2 fun hcc => h (hcc ▸ List.mem_cons_self c a2)
    show splitOnChar sep (c :: (a2 ++ sep :: rest)) = (c :: a2) :: splitOnChar sep rest
    rw [splitOnChar_cons, hc, if_neg Bool.false_ne_true,
      ih fun hm => h (List.mem_cons_of_mem c hm)]

theorem formatDate_ne_empty (d : PyDate) : (formatDate d == "") = false := by
  apply beq_eq_false_iff_ne.2
  intro hc
  have h2 : pad2 d.month ++ '/' :: (pad2 d.day ++ '/' :: natDigits d.year) = ([] : List Char) :=
    congrArg String.data hc
  simp at h2

/-- `strptime` inverts `strftime` on every valid date. -/
theorem parseDate_formatDate {d : PyDate} (h : dateValid d = true) :
    parseDate (formatDate d) = some d := by
  have hparts := h
  simp only [dateValid, Bool.and_eq_true, decide_eq_true_eq] at hparts
  obtain ⟨⟨⟨⟨⟨hy1, hy2⟩, hm1⟩, hm2⟩, hd1⟩, hd2⟩ := hparts
  have h31 : daysInMonth d.year d.month ≤ 31 := by
    unfold daysInMonth
    split
    · split <;> norm_num
    · split <;> norm_num
  have hm99 : d.month ≤ 99 := by omega
  have hd99 : d.day ≤ 99 := by omega
  obtain ⟨hmdig, hmval, hmlen⟩ := pad2_spec hm99
  obtain ⟨hddig, hdval, hdlen⟩ := pad2_spec hd99
  obtain ⟨⟨hyne, hydig⟩, hyval⟩ := natDigits_spec d.year
  have hy4 : d.year < 10 ^ 4 := by
    have h4 : (10 : Nat) ^ 4 = 10000 := by norm_num
    omega
  have hylen : (natDigits d.year).length ≤ 4 := natDigits_len hy4 (by norm_num)
  have hmns : '/' ∉ pad2 d.month := fun hm => (hmdig '/' hm).2 rfl
  have hdns : '/' ∉ pad2 d.day := fun hm => (hddig '/' hm).2 rfl
  have hyns : '/' ∉ natDigits d.year := fun hm => (hydig '/' hm).2 rfl
  have hsplit : splitOnChar '/' (formatDate d).data =
      [pad2 d.month, pad2 d.day, natDigits d.year] := by
    show splitOnChar '/' (pad2 d.month ++ '/' :: (pad2 d.day ++ '/' :: natDigits d.year)) = _
    rw [splitOnChar_append_sep _ _ hmns, splitOnChar_append_sep _ _ hdns,
      splitOnChar_no_sep _ hyns]
  have hvalid : dateValid ⟨d.year, d.month, d.day⟩ = true := h
  simp only [parseDate, hsplit, hmval, hdval, hyval]
  have hcond : (decide ((pad2 d.month).length ≤ 2) && decide ((pad2 d.day).length ≤ 2) &&
      decide ((natDigits d.year).length ≤ 4) && dateValid ⟨d.year, d.month, d.day⟩) = true := by
    rw [decide_eq_true hmlen, decide_eq_true hdlen, decide_eq_true hylen, hvalid]
    rfl
  rw [if_pos hcond]

theorem loadTimeVal_s (v : String) :
    loadTimeVal (J.s v) =
      if v == "" then Except.ok DateField.pynone
      else
        match parseDate v with
        | some d2 => Except.ok (DateField.date d2)
        | none => Except.error "ValidationError: not a valid datetime" := rfl

/-- `TimeField._deserialize` inverts `_serialize` on `None` and on valid
dates (only the verbatim `""` default is not restored). -/
theorem loadTimeVal_dumpTime {df : DateField} (h : DateField.rt df = true) :
    loadTimeVal (dumpTime df) = Except.ok df := by
  cases df with
  | blank => exact absurd h (by decide)
  | pynone => rfl
  | date d =>
    have hd : dateValid d = true := h
    show loadTimeVal (J.s (formatDate d)) = Except.ok (DateField.date d)
    rw [loadTimeVal_s, formatDate_ne_empty d, if_neg Bool.false_ne_true,
      parseDate_formatDate hd]

theorem except_ok_bind {α β : Type} (a : α) (f : α → Except String β) :
    (Except.ok a >>= f : Except String β) = f a := rfl

theorem exceptMapM_cons {α β : Type} (f : α → Except String β) (a : α) (rest : List α) :
    exceptMapM f (a :: rest) =
      match f a with
      | Except.error e => Except.error e
      | Except.ok b =>
        match exceptMapM f rest with
        | Except.error e => Except.error e
        | Except.ok bs => Except.ok (b :: bs) := rfl

/-- Loading a dumped list restores it when each item round-trips. -/
theorem exceptMapM_roundtrip {α β : Type} (g : β → α) (f : α → Except String β) :
    ∀ l : List β, (∀ b ∈ l, f (g b) = Except.ok b) →
      exceptMapM f (l.map g) = Except.ok l := by
  intro l
  induction l with
  | nil => intro _; rfl
  | cons b rest ih =>
    intro hall
    show exceptMapM f (g b :: rest.map g) = Except.ok (b :: rest)
    rw [exceptMapM_cons, hall b (List.mem_cons_self b rest),
      ih fun b2 hb2 => hall b2 (List.mem_cons_of_mem b hb2)]

theorem loadStrList_dump (l : List String) :
    loadStrList (some (J.arr (l.map J.s))) = Except.ok l :=
  exceptMapM_roundtrip J.s
    (fun j =>
      match j with
      | J.s v => Except.ok v
      | _ => Except.error "ValidationError: not a valid string")
    l fun _ _ => rfl

theorem loadStrListList_dump (l : List (List String)) :
    loadStrListList (some (J.arr (l.map fun e => J.arr (e.map J.s)))) = Except.ok l :=
  exceptMapM_roundtrip (fun e : List String => J.arr (e.map J.s)) (fun j => loadStrList (some j)) l
    fun b _ => loadStrList_dump b

/-- A `Sentence` with a round-trippable date field survives dump/load. -/
theorem sentence_roundtrip {s : Sentence} (h : Sentence.rt s = true) :
    Sentence.from_dict (Sentence.to_dict s) = Except.ok s := by
  have hdt : loadTimeReq (some (dumpTime s.sentence_dt)) = Except.ok s.sentence_dt :=
    loadTimeVal_dumpTime h
  simp [Sentence.to_dict, Sentence.from_dict, dictLookup, loadStr, loadStrD, hdt,
    except_ok_bind]

theorem loadSentences_dump {l : List Sentence} (h : l.all Sentence.rt = true) :
    loadSentences (some (J.arr (l.map Sentence.to_dict))) = Except.ok l :=
  exceptMapM_roundtrip Sentence.to_dict Sentence.from_dict l fun b hb =>
    sentence_roundtrip (List.all_eq_true.1 h b hb)

/-- A `Charge` whose sentences are round-trippable survives dump/load. -/
theorem charge_roundtrip {c : Charge} (h : Charge.rt c = true) :
    Charge.from_dict (Charge.to_dict c) = Except.ok c := by
  have hse : loadSentences (some (J.arr (c.sentences.map Sentence.to_dict))) =
      Except.ok c.sentences := loadSentences_dump h
  simp [Charge.to_dict, Charge.from_dict, dictLookup, loadStr, loadStrD, hse,
    except_ok_bind]

theorem loadCharges_dump {l : List Charge} (h : l.all Charge.rt = true) :
    loadCharges (some (J.arr (l.map Charge.to_dict))) = Except.ok l :=
  exceptMapM_roundtrip Charge.to_dict Charge.from_dict l fun b hb =>
    charge_roundtrip (List.all_eq_true.1 h b hb)

/-- A `Docket` whose date fields are round-trippable survives dump/load. -/
theorem docket_roundtrip {d : Docket} (h : Docket.rt d = true) :
    Docket.from_dict (Docket.to_dict d) = Except.ok d := by
  have hparts := h
  simp only [Docket.rt, Bool.and_eq_true] at hparts
  obtain ⟨⟨⟨⟨⟨ha, hn⟩, hl⟩, ht⟩, hdd⟩, hc⟩ := hparts
  have h1 : loadTimeReq (some (dumpTime d.arrest_dt)) = Except.ok d.arrest_dt :=
    loadTimeVal_dumpTime ha
  have h2 : loadTimeD (some (dumpTime d.next_action_date)) = Except.ok d.next_action_date :=
    loadTimeVal_dumpTime hn
  have h3 : loadTimeD (some (dumpTime d.last_action_date)) = Except.ok d.last_action_date :=
    loadTimeVal_dumpTime hl
  have h4 : loadTimeD (some (dumpTime d.trial_dt)) = Except.ok d.trial_dt :=
    loadTimeVal_dumpTime ht
  have h5 : loadTimeD (some (dumpTime d.disp_date)) = Except.ok d.disp_date :=
    loadTimeVal_dumpTime hdd
  have h6 : loadCharges (some (J.arr (d.charges.map Charge.to_dict))) = Except.ok d.charges :=
    loadCharges_dump hc
  have h7 : loadStrListList (some (J.arr (d.extra.map fun e => J.arr (e.map J.s)))) =
      Except.ok d.extra := loadStrListList_dump d.extra
  simp [Docket.to_dict, Docket.from_dict, dictLookup, loadStr, loadStrD, h1, h2, h3,
    h4, h5, h6, h7, except_ok_bind]

/-- C8, counterexample: loading a summary whose docket omits the four optional
date keys stores the verbatim `""` dataclass default; dumping and loading that
result turns each such field into `None`, so the round trip is not the
identity on successfully deserialized values (`csC8' ≠ csC8`). -/
theorem claims_C8_counterexample :
    CourtSummary.from_dict jInputC8 = Except.ok csC8 ∧
    CourtSummary.from_dict (CourtSummary.to_dict csC8) = Except.ok csC8' ∧
    csC8' ≠ csC8 :=
  ⟨by decide, by decide, by decide⟩

/-- C8, amended: for a court summary all of whose `TimeField` values are
`None` or a valid parsed datetime — excluding only the verbatim `""` default a
missing optional key leaves behind — dumping with `desert.schema(...).dump`
and loading the result restores the object exactly, across all nested
dockets, charges and sentences. -/
theorem claims_C8_amended (cs : CourtSummary) (h : CourtSummary.rt cs = true) :
    CourtSummary.from_dict (CourtSummary.to_dict cs) = Except.ok cs := by
  have hal : loadStrList (some (J.arr (cs.aliases.map J.s))) = Except.ok cs.aliases :=
    loadStrList_dump cs.aliases
  have hdk : loadDockets (some (J.arr (cs.dockets.map Docket.to_dict))) =
      Except.ok cs.dockets :=
    exceptMapM_roundtrip Docket.to_dict Docket.from_dict cs.dockets fun b hb =>
      docket_roundtrip (List.all_eq_true.1 h b hb)
  simp [CourtSummary.to_dict, CourtSummary.from_dict, dictLookup, loadStr, hal, hdk,
    except_ok_bind]

/-- C8 witness: a concrete summary with nested docket, charge and sentence
records and only round-trippable date values, on which the amended round trip
holds. -/
theorem claims_C8_amended_witness :
    CourtSummary.rt csC8w = true ∧
    CourtSummary.from_dict (CourtSummary.to_dict csC8w) = Except.ok csC8w :=
  ⟨by decide, claims_C8_amended csC8w (by decide)⟩


end PhlCourts
